import Mathlib

/-!
Verification of the LSP client bridge in `src/core/markdown_lsp_analyzer.py`
(class `FixedLSPClient`).  The Python code is shallowly embedded: the
process's standard streams are opened in text mode (`text=True`), so both
directions of the wire are modelled as `List Char` (Python text-mode I/O is
in characters); JSON values exchanged over the wire are modelled by the
inductive `Json`; the standard-library pieces the client calls
(`json.dumps` / `json.loads` with their defaults, `int()`, text-mode
`read(n)`) are modelled to the behaviour they exhibit on these inputs.
-/

set_option maxHeartbeats 1000000

namespace LSPBridge

/-- JSON values as produced/consumed by `json.dumps` / `json.loads`.
Numbers are restricted to integers, the only numbers the client ever puts
in a message; object fields keep Python's dict insertion order. -/
inductive Json where
  | null : Json
  | bool : Bool → Json
  | num : Int → Json
  | str : String → Json
  | arr : List Json → Json
  | obj : List (String × Json) → Json

/-- Hex digit characters, lowercase, as Python's `\uXXXX` escapes use. -/
def hexDigit (n : Nat) : Char :=
  if n < 10 then Char.ofNat (48 + n) else Char.ofNat (87 + n)

/-- Four-digit lowercase hex rendering of `n % 0x10000`. -/
def hex4 (n : Nat) : List Char :=
  [hexDigit (n / 4096 % 16), hexDigit (n / 256 % 16),
   hexDigit (n / 16 % 16), hexDigit (n % 16)]

/-- Escape one character the way `json.dumps` (default `ensure_ascii=True`)
does: `"` and `\` get a backslash, the named control escapes are used for
\b \t \n \f \r, every other character outside 0x20..0x7E becomes `\uXXXX`
(a surrogate pair for astral characters), the rest pass through. -/
def escChar (c : Char) : List Char :=
  if c = '"' then ['\\', '"']
  else if c = '\\' then ['\\', '\\']
  else if c.toNat = 8 then ['\\', 'b']
  else if c.toNat = 9 then ['\\', 't']
  else if c.toNat = 10 then ['\\', 'n']
  else if c.toNat = 12 then ['\\', 'f']
  else if c.toNat = 13 then ['\\', 'r']
  else if c.toNat < 32 then '\\' :: 'u' :: hex4 c.toNat
  else if c.toNat < 127 then [c]
  else if c.toNat < 65536 then '\\' :: 'u' :: hex4 c.toNat
  else
    ('\\' :: 'u' :: hex4 (55296 + (c.toNat - 65536) / 1024)) ++
    ('\\' :: 'u' :: hex4 (56320 + (c.toNat - 65536) % 1024))

/-- The characters of a JSON string literal for `s` (quotes included). -/
def quoteStr (s : String) : List Char :=
  '"' :: (s.data.flatMap escChar) ++ ['"']

/-- Decimal digits of `n`, most significant first (fuel-driven so that it
reduces definitionally; `natDigitsAux fuel n` is stable once `n < fuel`). -/
def natDigitsAux : Nat → Nat → List Char
  | 0, _ => []
  | fuel + 1, n =>
      if n = 0 then [] else natDigitsAux fuel (n / 10) ++ [Char.ofNat (48 + n % 10)]

/-- Decimal rendering of a natural number, as Python `str` does. -/
def natDigits (n : Nat) : List Char :=
  if n = 0 then ['0'] else natDigitsAux (n + 1) n

/-- Python `str(int)`: decimal digits, `-` sign for negatives. -/
def intChars (i : Int) : List Char :=
  if i < 0 then '-' :: natDigits ((-i).toNat) else natDigits i.toNat

mutual
/-- `json.dumps` with its defaults (`ensure_ascii=True`, item separator
`", "`, key separator `": "`, insertion order kept), producing the
character sequence of the resulting Python `str`. -/
def dumps : Json → List Char
  | .num i => intChars i
  | .str s => quoteStr s
  | .bool false => ['f', 'a', 'l', 's', 'e']
  | .bool true => ['t', 'r', 'u', 'e']
  | .null => ['n', 'u', 'l', 'l']
  | .arr xs => '[' :: dumpsItems xs ++ [']']
  | .obj kvs => '\x7b' :: dumpsFields kvs ++ ['\x7d']

/-- Array items joined by `", "`. -/
def dumpsItems : List Json → List Char
  | [] => []
  | [x] => dumps x
  | x :: y :: ys => dumps x ++ ',' :: ' ' :: dumpsItems (y :: ys)

/-- Object fields `"key": value` joined by `", "`. -/
def dumpsFields : List (String × Json) → List Char
  | [] => []
  | [(k, v)] => quoteStr k ++ ':' :: ' ' :: dumps v
  | (k, v) :: kv :: kvs =>
      quoteStr k ++ ':' :: ' ' :: dumps v ++ ',' :: ' ' :: dumpsFields (kv :: kvs)
end

/-- The Python exceptions the transport paths can raise.  `text` gives the
`str(e)` used when `send_request` converts a caught exception into an error
dictionary (JSON decode and `int()` messages are abbreviated to a stable
stand-in for CPython's formatted text). -/
inductive PyErr where
  | connectionClosed : PyErr      -- ConnectionError("Conexión LSP cerrada")
  | contentLengthMissing : PyErr  -- ValueError("Content-Length header no encontrado")
  | badIntLiteral : PyErr         -- ValueError from int() on a malformed header value
  | jsonDecode : PyErr            -- json.JSONDecodeError
  | notRunning : PyErr            -- RuntimeError("LSP server no está ejecutándose")
  | notAvailableNotif : PyErr     -- RuntimeError("LSP server no disponible")
  | writeFault : String → PyErr   -- modelled OSError raised by stdin.write/flush
  | futuresTimeout : PyErr        -- concurrent.futures.TimeoutError from future.result
  deriving DecidableEq

def PyErr.text : PyErr → String
  | .connectionClosed => "Conexión LSP cerrada"
  | .contentLengthMissing => "Content-Length header no encontrado"
  | .badIntLiteral => "invalid literal for int() with base 10"
  | .jsonDecode => "Expecting value"
  | .notRunning => "LSP server no está ejecutándose"
  | .notAvailableNotif => "LSP server no disponible"
  | .writeFault m => m
  | .futuresTimeout => ""

/-- The whitespace characters `json.loads` skips between tokens. -/
def isJWs (c : Char) : Bool :=
  c = ' ' || c = '\t' || c = '\n' || c = '\r'

/-- Drop leading JSON whitespace. -/
def skipWs : List Char → List Char
  | [] => []
  | c :: cs => if isJWs c then skipWs cs else c :: cs

/-- ASCII decimal digit test. -/
def isDig (c : Char) : Bool :=
  48 ≤ c.toNat && c.toNat ≤ 57

/-- Value of one hex digit character, if it is one. -/
def hexVal (c : Char) : Option Nat :=
  if 48 ≤ c.toNat && c.toNat ≤ 57 then some (c.toNat - 48)
  else if 97 ≤ c.toNat && c.toNat ≤ 102 then some (c.toNat - 87)
  else if 65 ≤ c.toNat && c.toNat ≤ 70 then some (c.toNat - 55)
  else none

/-- Greedily consume decimal digits, folding them onto `acc`. -/
def parseDigits : List Char → Nat → Nat × List Char
  | [], acc => (acc, [])
  | c :: cs, acc =>
      if isDig c then parseDigits cs (acc * 10 + (c.toNat - 48)) else (acc, c :: cs)

/-- Prepend a character to the string being accumulated by
`parseStringBody`. -/
def consResult (c : Char) :
    Except PyErr (List Char × List Char) → Except PyErr (List Char × List Char)
  | .ok (s, r) => .ok (c :: s, r)
  | .error e => .error e

/-- Read four hex digits at the front of `r`, as CPython's scanner slices
`s[idx:idx + 4]`. -/
def hex4At (r : List Char) : Option Nat :=
  match r.take 4 with
  | [a, b, c, d] =>
      match hexVal a, hexVal b, hexVal c, hexVal d with
      | some va, some vb, some vc, some vd =>
          some (va * 4096 + vb * 256 + vc * 16 + vd)
      | _, _, _, _ => none
  | _ => none

/-- Decode one `\uXXXX` escape (the `\u` already consumed), combining a
high surrogate with the following `\uXXXX` low surrogate into one scalar.
Lone surrogates, which CPython would keep as unpaired surrogate code
units, denote no Lean `Char` and are rejected; `json.dumps` output never
contains them. -/
def parseUEscape (r : List Char) : Except PyErr (Char × List Char) :=
  match hex4At r with
  | none => .error .jsonDecode
  | some n =>
    if 55296 ≤ n ∧ n < 56320 then
      if (r.drop 4).take 2 = ['\\', 'u'] then
        match hex4At (r.drop 6) with
        | none => .error .jsonDecode
        | some m =>
          if 56320 ≤ m ∧ m < 57344 then
            .ok (Char.ofNat (65536 + (n - 55296) * 1024 + (m - 56320)), r.drop 10)
          else .error .jsonDecode
      else .error .jsonDecode
    else if 56320 ≤ n ∧ n < 57344 then .error .jsonDecode
    else .ok (Char.ofNat n, r.drop 4)

/-- Parse the body of a JSON string literal (the opening quote already
consumed), returning its characters and the rest of the input after the
closing quote.  Escapes follow `json.loads` in strict mode; unescaped
control characters are rejected.  The fuel argument is an embedding
artifact; callers pass more than the input length, which is always
enough. -/
def parseStringBody : Nat → List Char → Except PyErr (List Char × List Char)
  | 0, _ => .error .jsonDecode
  | _ + 1, [] => .error .jsonDecode
  | fuel + 1, c :: rest =>
    if c = '"' then .ok ([], rest)
    else if c = '\\' then
      match rest.head? with
      | none => .error .jsonDecode
      | some e =>
        if e = '"' then consResult '"' (parseStringBody fuel rest.tail)
        else if e = '\\' then consResult '\\' (parseStringBody fuel rest.tail)
        else if e = '/' then consResult '/' (parseStringBody fuel rest.tail)
        else if e = 'b' then consResult '\x08' (parseStringBody fuel rest.tail)
        else if e = 'f' then consResult '\x0c' (parseStringBody fuel rest.tail)
        else if e = 'n' then consResult '\n' (parseStringBody fuel rest.tail)
        else if e = 'r' then consResult '\x0d' (parseStringBody fuel rest.tail)
        else if e = 't' then consResult '\t' (parseStringBody fuel rest.tail)
        else if e = 'u' then
          match parseUEscape rest.tail with
          | .ok (ch, r2) => consResult ch (parseStringBody fuel r2)
          | .error err => .error err
        else .error .jsonDecode
    else if c.toNat < 32 then .error .jsonDecode
    else consResult c (parseStringBody fuel rest)

mutual
/-- One JSON value, fuel-indexed (`loads` supplies fuel larger than the
input length, which the correctness lemmas show is always enough).
Numbers are integer-only; the float forms (`.`/`e` continuations,
`Infinity`, `NaN`) denote values outside this model and are rejected. -/
def parseValue : Nat → List Char → Except PyErr (Json × List Char)
  | 0, _ => .error .jsonDecode
  | _ + 1, [] => .error .jsonDecode
  | fuel + 1, c :: rest =>
    if c = '"' then
      match parseStringBody (rest.length + 1) rest with
      | .ok (s, r) => .ok (.str (String.mk s), r)
      | .error e => .error e
    else if c = '[' then
      match skipWs rest with
      | [] => .error .jsonDecode
      | c1 :: r1 =>
        if c1 = ']' then .ok (.arr [], r1)
        else
          match parseItems fuel (c1 :: r1) with
          | .ok (xs, r) => .ok (.arr xs, r)
          | .error e => .error e
    else if c = '\x7b' then
      match skipWs rest with
      | [] => .error .jsonDecode
      | c1 :: r1 =>
        if c1 = '\x7d' then .ok (.obj [], r1)
        else
          match parseFields fuel (c1 :: r1) with
          | .ok (kvs, r) => .ok (.obj kvs, r)
          | .error e => .error e
    else if c = 'n' then
      -- CPython probes `s[idx:idx + 4] == 'null'`
      if rest.take 3 = ['u', 'l', 'l'] then .ok (.null, rest.drop 3)
      else .error .jsonDecode
    else if c = 't' then
      if rest.take 3 = ['r', 'u', 'e'] then .ok (.bool true, rest.drop 3)
      else .error .jsonDecode
    else if c = 'f' then
      if rest.take 4 = ['a', 'l', 's', 'e'] then .ok (.bool false, rest.drop 4)
      else .error .jsonDecode
    else if c = '-' then
      match rest.head? with
      | none => .error .jsonDecode
      | some c2 =>
        if c2 = '0' then .ok (.num 0, rest.tail)
        else if isDig c2 then
          let (n, r) := parseDigits rest 0
          .ok (.num (-(n : Int)), r)
        else .error .jsonDecode
    else if c = '0' then .ok (.num 0, rest)
    else if isDig c then
      let (n, r) := parseDigits (c :: rest) 0
      .ok (.num (n : Int), r)
    else .error .jsonDecode

/-- The items of a non-empty JSON array, after the opening `[` and leading
whitespace; consumes through the closing `]`. -/
def parseItems : Nat → List Char → Except PyErr (List Json × List Char)
  | 0, _ => .error .jsonDecode
  | fuel + 1, cs =>
    match parseValue fuel cs with
    | .error e => .error e
    | .ok (v, r) =>
      match skipWs r with
      | [] => .error .jsonDecode
      | c1 :: r1 =>
        if c1 = ']' then .ok ([v], r1)
        else if c1 = ',' then
          match parseItems fuel (skipWs r1) with
          | .ok (vs, r2) => .ok (v :: vs, r2)
          | .error e => .error e
        else .error .jsonDecode

/-- The fields of a non-empty JSON object, after the opening brace and
leading whitespace; consumes through the closing brace. -/
def parseFields : Nat → List Char → Except PyErr (List (String × Json) × List Char)
  | 0, _ => .error .jsonDecode
  | fuel + 1, cs =>
    match cs with
    | [] => .error .jsonDecode
    | c :: rest =>
      if c = '"' then
        match parseStringBody (rest.length + 1) rest with
        | .error e => .error e
        | .ok (k, r) =>
          match skipWs r with
          | [] => .error .jsonDecode
          | c1 :: r1 =>
            if c1 = ':' then
              match parseValue fuel (skipWs r1) with
              | .error e => .error e
              | .ok (v, r2) =>
                match skipWs r2 with
                | [] => .error .jsonDecode
                | c2 :: r3 =>
                  if c2 = '\x7d' then .ok ([(String.mk k, v)], r3)
                  else if c2 = ',' then
                    match parseFields fuel (skipWs r3) with
                    | .ok (kvs, r4) => .ok ((String.mk k, v) :: kvs, r4)
                    | .error e => .error e
                  else .error .jsonDecode
            else .error .jsonDecode
      else .error .jsonDecode
end

/-- `json.loads`: skip surrounding whitespace, parse one value, reject
trailing garbage ("Extra data"). -/
def loads (cs : List Char) : Except PyErr Json :=
  match parseValue (cs.length + 1) (skipWs cs) with
  | .error e => .error e
  | .ok (v, r) => if skipWs r = [] then .ok v else .error .jsonDecode

/-- UTF-8 byte size of one Unicode scalar value. -/
def utf8Size (c : Char) : Nat :=
  if c.toNat < 128 then 1
  else if c.toNat < 2048 then 2
  else if c.toNat < 65536 then 3
  else 4

/-- UTF-8 byte length of a character sequence: the `N` the spec's
FrameCodec contract talks about. -/
def utf8Len (cs : List Char) : Nat :=
  (cs.map utf8Size).sum

/-- The frame both `send_request` and `send_notification` build:
`f"Content-Length: {len(body)}\r\n\r\n{body}"`.  `len` on a Python `str`
is its character count. -/
def encodeFrame (body : List Char) : List Char :=
  "Content-Length: ".data ++ natDigits body.length ++
    '\x0d' :: '\n' :: '\x0d' :: '\n' :: body

/-- Does the accumulated header end in `\r\n\r\n` (Python
`header.endswith("\r\n\r\n")`)? -/
def ends4 (l : List Char) : Bool :=
  decide (l.reverse.take 4 = ['\n', '\x0d', '\n', '\x0d'])

/-- The header loop of `_read_lsp_response_async`: read one character at a
time, stop once the accumulated text ends in `\r\n\r\n`; an empty read
(stream end) raises `ConnectionError("Conexión LSP cerrada")`. -/
def readHeader : List Char → List Char → Except PyErr (List Char × List Char)
  | [], _ => .error .connectionClosed
  | c :: cs, acc =>
      let acc2 := acc ++ [c]
      if ends4 acc2 then .ok (acc2, cs) else readHeader cs acc2

/-- Python `str.split("\r\n")`. -/
def splitCRLF : List Char → List (List Char)
  | [] => [[]]
  | '\x0d' :: '\n' :: rest => [] :: splitCRLF rest
  | c :: rest =>
      match splitCRLF rest with
      | [] => [[c]]
      | l :: ls => (c :: l) :: ls

/-- Python `str.split(":")`. -/
def splitColon : List Char → List (List Char)
  | [] => [[]]
  | ':' :: rest => [] :: splitColon rest
  | c :: rest =>
      match splitColon rest with
      | [] => [[c]]
      | l :: ls => (c :: l) :: ls

/-- The whitespace `str.strip()` removes (ASCII portion, the only part a
Content-Length header value can contain here). -/
def isPyWs (c : Char) : Bool :=
  c = ' ' || c = '\t' || c = '\n' || c = '\x0d' || c = '\x0b' || c = '\x0c'

/-- Python `str.strip()`. -/
def pyStrip (cs : List Char) : List Char :=
  ((cs.dropWhile isPyWs).reverse.dropWhile isPyWs).reverse

/-- Decimal value of a digit sequence. -/
def digitsToNat (ds : List Char) : Nat :=
  ds.foldl (fun a c => a * 10 + (c.toNat - 48)) 0

/-- Python `int(str)` in base 10 on the forms a Content-Length value can
take: surrounding whitespace stripped, optional sign, nonempty run of
decimal digits (digit-group underscores and non-ASCII digits, which
CPython also accepts, do not occur on this wire and are not modelled). -/
def pyInt (cs : List Char) : Except PyErr Int :=
  match pyStrip cs with
  | '-' :: ds =>
      if ds ≠ [] ∧ ds.all isDig then .ok (-(digitsToNat ds : Int))
      else .error .badIntLiteral
  | '+' :: ds =>
      if ds ≠ [] ∧ ds.all isDig then .ok (digitsToNat ds : Int)
      else .error .badIntLiteral
  | ds =>
      if ds ≠ [] ∧ ds.all isDig then .ok (digitsToNat ds : Int)
      else .error .badIntLiteral

/-- Python text-mode `read(n)`: at most `n` characters, fewer if the
stream ends first; a negative `n` reads everything. -/
def readN (n : Int) (cs : List Char) : List Char × List Char :=
  if n < 0 then (cs, []) else (cs.take n.toNat, cs.drop n.toNat)

/-- The Content-Length extraction of `_read_lsp_response_async`: scan the
header's `\r\n`-separated lines for the first one starting with
`Content-Length:`, then `int(line.split(":")[1].strip())`; no such line
raises `ValueError("Content-Length header no encontrado")`. -/
def contentLengthOf (header : List Char) : Except PyErr Int :=
  match (splitCRLF header).find? (fun l => "Content-Length:".data.isPrefixOf l) with
  | none => .error .contentLengthMissing
  | some line =>
      match splitColon line with
      | _ :: second :: _ => pyInt second
      | _ => .error .badIntLiteral  -- unreachable: the matched line contains a colon

/-- The tail of `_read_lsp_response_async` once the length is known: read
that many characters and `json.loads` them. -/
def decodeBody (n : Int) (rest : List Char) : Except PyErr Json × List Char :=
  match loads (readN n rest).1 with
  | .error e => (.error e, (readN n rest).2)
  | .ok v => (.ok v, (readN n rest).2)

/-- `_read_lsp_response_async` after the header block has been read:
extract the declared length, then decode the body. -/
def afterHeader (header rest : List Char) : Except PyErr Json × List Char :=
  match contentLengthOf header with
  | .error e => (.error e, rest)
  | .ok n => decodeBody n rest

/-- `_read_lsp_response_async`: read the header block character by
character, extract the declared length, read that many characters,
`json.loads` them.  Returns the outcome together with the unconsumed rest
of the stream. -/
def read_lsp_response (stream : List Char) : Except PyErr Json × List Char :=
  match readHeader stream [] with
  | .error e => (.error e, [])
  | .ok (header, rest) => afterHeader header rest

/-- The mutable state of a `FixedLSPClient`, plus the two stream buffers
that stand for the spawned process's text-mode pipes: `stdin_written` is
everything the client has written, `stdout_stream` the server output not
yet consumed. -/
structure ClientState where
  request_id : Int
  processStarted : Bool      -- self.process is not None
  processAlive : Bool        -- self.process.poll() is None
  stdin_written : List Char
  stdout_stream : List Char
  timeout : Int              -- self.timeout, seconds (10.0 in __init__)
  deriving Repr

/-- `__init__`: counter at 1, no process, timeout 10; the server output
the process will eventually produce is the `stdout` parameter. -/
def initClient (stdout : List Char) : ClientState :=
  { request_id := 1, processStarted := false, processAlive := false,
    stdin_written := [], stdout_stream := stdout, timeout := 10 }

/-- What the environment does when `start_server` probes and spawns the
executable. -/
structure SpawnEnv where
  execPresent : Bool        -- the probe `subprocess.run([path, "--version"])` finds the binary
  versionProbe : Option Int -- its exit code; `none` = the probe raised (e.g. 5 s timeout)
  aliveAfterGrace : Bool    -- `poll() is None` after the 1-second sleep following Popen
  deriving Repr

/-- `start_server`: version probe (missing binary → FileNotFoundError →
False; nonzero exit → False), `Popen([path, "server"], ...)`, one-second
grace sleep, then `poll()`; an exited process → False, otherwise True. -/
def start_server (s : ClientState) (env : SpawnEnv) : Bool × ClientState :=
  if ¬ env.execPresent then (false, s)
  else
    match env.versionProbe with
    | none => (false, s)
    | some code =>
        if code ≠ 0 then (false, s)
        else
          let s1 := { s with processStarted := true, processAlive := env.aliveAfterGrace }
          if env.aliveAfterGrace then (true, s1) else (false, s1)

/-- `params or {}`. -/
def paramsOrEmpty : Option Json → Json
  | none => .obj []
  | some p => p

/-- The request dictionary `send_request` builds. -/
def requestObj (id : Int) (method : String) (params : Option Json) : Json :=
  .obj [("jsonrpc", .str "2.0"), ("id", .num id), ("method", .str method),
        ("params", paramsOrEmpty params)]

/-- The notification dictionary `send_notification` builds: no `"id"`. -/
def notificationObj (method : String) (params : Option Json) : Json :=
  .obj [("jsonrpc", .str "2.0"), ("method", .str method),
        ("params", paramsOrEmpty params)]

/-- The dictionary the `except` arm of `send_request` returns for a caught
transport exception `e`. -/
def errorDict (msg : String) : Json :=
  .obj [("error", .obj [("code", .num (-2)), ("message", .str msg)])]

/-- `send_request`: liveness check (`RuntimeError` raised, uncaught, if the
process was never started or has exited), build the request with the
current id, post-increment the counter, frame and write it, read one
response; any exception in the write/read span is caught and turned into
`errorDict (str e)`.  `writeFault` injects the possible OSError of
`stdin.write`/`flush` (`none` = the write succeeds). -/
def send_request (s : ClientState) (method : String) (params : Option Json)
    (writeFault : Option String) : Except PyErr Json × ClientState :=
  if ¬ (s.processStarted && s.processAlive) then (.error .notRunning, s)
  else
    let req := requestObj s.request_id method params
    let s1 := { s with request_id := s.request_id + 1 }
    let frame := encodeFrame (dumps req)
    match writeFault with
    | some msg => (.ok (errorDict msg), s1)
    | none =>
        let s2 := { s1 with stdin_written := s1.stdin_written ++ frame }
        match read_lsp_response s2.stdout_stream with
        | (.ok resp, rest) => (.ok resp, { s2 with stdout_stream := rest })
        | (.error e, rest) => (.ok (errorDict e.text), { s2 with stdout_stream := rest })

/-- `send_notification`: existence check (`RuntimeError` raised if the
process or its stdin is gone), build the id-less notification, frame and
write it; nothing is read and nothing is returned. -/
def send_notification (s : ClientState) (method : String) (params : Option Json) :
    Except PyErr Unit × ClientState :=
  if ¬ s.processStarted then (.error .notAvailableNotif, s)
  else
    (.ok (), { s with stdin_written :=
        s.stdin_written ++ encodeFrame (dumps (notificationObj method params)) })

/-- `_run_async`: submit the coroutine to the dedicated loop and block on
`future.result(self.timeout)` — the one client-wide timeout field, there
is no per-call parameter.  `completesAt` is the wall-clock instant (s) at
which the coroutine would finish, `none` if it never does; past the
timeout `concurrent.futures.TimeoutError` is re-raised. -/
def run_async (s : ClientState) (completesAt : Option Int) (v : α) : Except PyErr α :=
  match completesAt with
  | some t => if t ≤ s.timeout then .ok v else .error .futuresTimeout
  | none => .error .futuresTimeout

/-- Run a sequence of `send_request` calls (fault-free writes). -/
def runCalls (s : ClientState) : List (String × Option Json) → ClientState
  | [] => s
  | (m, p) :: rest => runCalls (send_request s m p none).2 rest

/-- Field lookup in a JSON object (`none` on non-objects). -/
def lookupField (j : Json) (k : String) : Option Json :=
  match j with
  | .obj kvs => (kvs.find? (fun kv => kv.1 == k)).map (fun kv => kv.2)
  | _ => none

/-- The concatenated frames of a call sequence whose first request takes id
`id`, each later one the successor — the wire image C5 predicts. -/
def framesFrom (id : Int) : List (String × Option Json) → List Char
  | [] => []
  | (m, p) :: rest => encodeFrame (dumps (requestObj id m p)) ++ framesFrom (id + 1) rest

mutual
/-- No JSON object anywhere inside carries duplicate keys: the values
representable as Python dict trees, the domain on which `Json` is a
faithful image of what `json.dumps` can be fed. -/
def noDupKeys : Json → Prop
  | .arr xs => noDupKeysItems xs
  | .obj kvs => (kvs.map Prod.fst).Nodup ∧ noDupKeysFields kvs
  | _ => True

def noDupKeysItems : List Json → Prop
  | [] => True
  | x :: xs => noDupKeys x ∧ noDupKeysItems xs

def noDupKeysFields : List (String × Json) → Prop
  | [] => True
  | (_, v) :: kvs => noDupKeys v ∧ noDupKeysFields kvs
end

/-- A client whose (started, live) process has queued on stdout a single
framed response carrying id 42, while the client's next request id is 1. -/
def mismatchClient : ClientState :=
  { initClient (encodeFrame (dumps (Json.obj [("id", Json.num 42)]))) with
      processStarted := true, processAlive := true }

mutual
/-- Fuel needed by `parseValue` on `dumps` output: one unit per
parseValue/parseItems/parseFields call. -/
def pbound : Json → Nat
  | .arr xs => pboundItems xs + 1
  | .obj kvs => pboundFields kvs + 1
  | _ => 1

def pboundItems : List Json → Nat
  | [] => 1
  | [x] => pbound x + 1
  | x :: xs => pbound x + pboundItems xs + 1

def pboundFields : List (String × Json) → Nat
  | [] => 1
  | [(_, v)] => pbound v + 1
  | (_, v) :: kvs => pbound v + pboundFields kvs + 1
end

/-- The continuations `dumps` can leave after a value: end of input or a
separator/closer, never something that can extend the value. -/
def delimHead : List Char → Prop
  | [] => True
  | c :: _ => c = ',' ∨ c = ']' ∨ c = '\x7d'

/- ### Nested induction principle for `Json` -/

theorem Json.induct (P : Json → Prop) (Q : List Json → Prop)
    (R : List (String × Json) → Prop)
    (hnull : P .null) (hbool : ∀ b, P (.bool b)) (hnum : ∀ i, P (.num i))
    (hstr : ∀ s, P (.str s))
    (harr : ∀ xs, Q xs → P (.arr xs)) (hobj : ∀ kvs, R kvs → P (.obj kvs))
    (hqnil : Q []) (hqcons : ∀ x xs, P x → Q xs → Q (x :: xs))
    (hrnil : R []) (hrcons : ∀ k v kvs, P v → R kvs → R ((k, v) :: kvs)) :
    ∀ v, P v :=
  fun v =>
    @Json.rec P Q R (fun kv => P kv.2) hnull hbool hnum hstr harr hobj
      hqnil (fun h t ph qt => hqcons h t ph qt)
      hrnil (fun h t p4 rt => hrcons h.1 h.2 t p4 rt)
      (fun _ _ pv => pv) v

/- ### ASCII facts about `dumps` output -/

theorem digitChar_toNat : ∀ m < 10, (Char.ofNat (48 + m)).toNat = 48 + m := by decide

theorem natDigitsAux_digits (fuel : Nat) :
    ∀ n, ∀ c ∈ natDigitsAux fuel n, isDig c = true := by
  induction fuel with
  | zero => intro n c hc; simp [natDigitsAux] at hc
  | succ fuel ih =>
    intro n c hc
    rw [natDigitsAux] at hc
    by_cases h0 : n = 0
    · simp [h0] at hc
    · rw [if_neg h0] at hc
      rcases List.mem_append.mp hc with h | h
      · exact ih _ c h
      · simp only [List.mem_singleton] at h
        subst h
        have ht : (Char.ofNat (48 + n % 10)).toNat = 48 + n % 10 :=
          digitChar_toNat _ (Nat.mod_lt _ (by omega))
        simp only [isDig, ht, Bool.and_eq_true, decide_eq_true_eq]
        omega

theorem natDigits_digits (n : Nat) : ∀ c ∈ natDigits n, isDig c = true := by
  intro c hc
  rw [natDigits] at hc
  by_cases h0 : n = 0
  · rw [if_pos h0] at hc; simp only [List.mem_singleton] at hc; subst hc; decide
  · rw [if_neg h0] at hc; exact natDigitsAux_digits _ _ c hc

theorem isDig_bounds (c : Char) (h : isDig c = true) :
    48 ≤ c.toNat ∧ c.toNat ≤ 57 := by
  simpa [isDig] using h

theorem hexDigit_ascii : ∀ k < 16, (hexDigit k).toNat < 127 := by decide

theorem mem_hex4_ascii (n : Nat) : ∀ d ∈ hex4 n, d.toNat < 127 := by
  intro d hd
  simp only [hex4, List.mem_cons, List.mem_singleton, List.not_mem_nil, or_false] at hd
  rcases hd with h | h | h | h <;> subst h <;>
    exact hexDigit_ascii _ (Nat.mod_lt _ (by omega))

theorem mem_pair_ascii {a b d : Char} (ha : a.toNat < 127) (hb : b.toNat < 127)
    (hd : d ∈ [a, b]) : d.toNat < 127 := by
  rcases List.mem_cons.mp hd with h | h
  · subst h; exact ha
  · rw [List.mem_singleton] at h; subst h; exact hb

theorem mem_escU_ascii {n : Nat} {d : Char} (hd : d ∈ '\\' :: 'u' :: hex4 n) :
    d.toNat < 127 := by
  rcases List.mem_cons.mp hd with h | h
  · subst h; decide
  · rcases List.mem_cons.mp h with h | h
    · subst h; decide
    · exact mem_hex4_ascii n d h

theorem escChar_ascii (c : Char) : ∀ d ∈ escChar c, d.toNat < 127 := by
  intro d hd
  rw [escChar] at hd
  split_ifs at hd with h1 h2 h3 h4 h5 h6 h7 h8 h9 h10
  · exact mem_pair_ascii (by decide) (by decide) hd
  · exact mem_pair_ascii (by decide) (by decide) hd
  · exact mem_pair_ascii (by decide) (by decide) hd
  · exact mem_pair_ascii (by decide) (by decide) hd
  · exact mem_pair_ascii (by decide) (by decide) hd
  · exact mem_pair_ascii (by decide) (by decide) hd
  · exact mem_pair_ascii (by decide) (by decide) hd
  · exact mem_escU_ascii hd
  · rw [List.mem_singleton] at hd; subst hd; exact h9
  · exact mem_escU_ascii hd
  · rcases List.mem_append.mp hd with h | h <;> exact mem_escU_ascii h

theorem quoteStr_ascii (s : String) : ∀ c ∈ quoteStr s, c.toNat < 127 := by
  intro c hc
  rw [quoteStr] at hc
  rcases List.mem_cons.mp hc with h | h
  · subst h; decide
  · rcases List.mem_append.mp h with h | h
    · rcases List.mem_flatMap.mp h with ⟨e, _, he⟩
      exact escChar_ascii e c he
    · rw [List.mem_singleton] at h; subst h; decide

theorem intChars_ascii (i : Int) : ∀ c ∈ intChars i, c.toNat < 127 := by
  intro c hc
  rw [intChars] at hc
  have hdig : ∀ n : Nat, c ∈ natDigits n → c.toNat < 127 := fun n h => by
    have := isDig_bounds c (natDigits_digits n c h); omega
  split_ifs at hc
  · rcases List.mem_cons.mp hc with h | h
    · subst h; decide
    · exact hdig _ h
  · exact hdig _ hc

theorem dumps_ascii : ∀ v : Json, ∀ c ∈ dumps v, c.toNat < 127 := by
  apply Json.induct (fun v => ∀ c ∈ dumps v, c.toNat < 127)
    (fun xs => ∀ c ∈ dumpsItems xs, c.toNat < 127)
    (fun kvs => ∀ c ∈ dumpsFields kvs, c.toNat < 127)
  · intro c hc
    simp only [dumps, List.mem_cons, List.mem_singleton, List.not_mem_nil, or_false] at hc
    rcases hc with h | h | h | h <;> subst h <;> decide
  · intro b c hc
    cases b
    · simp only [dumps, List.mem_cons, List.not_mem_nil, or_false] at hc
      rcases hc with h | h | h | h | h <;> subst h <;> decide
    · simp only [dumps, List.mem_cons, List.not_mem_nil, or_false] at hc
      rcases hc with h | h | h | h <;> subst h <;> decide
  · intro i c hc
    exact intChars_ascii i c hc
  · intro s c hc
    exact quoteStr_ascii s c hc
  · intro xs ih c hc
    rw [dumps] at hc
    rcases List.mem_cons.mp hc with h | h
    · subst h; decide
    · rcases List.mem_append.mp h with h | h
      · exact ih c h
      · rw [List.mem_singleton] at h; subst h; decide
  · intro kvs ih c hc
    rw [dumps] at hc
    rcases List.mem_cons.mp hc with h | h
    · subst h; decide
    · rcases List.mem_append.mp h with h | h
      · exact ih c h
      · rw [List.mem_singleton] at h; subst h; decide
  · intro c hc
    simp [dumpsItems] at hc
  · intro x xs ihx ihxs c hc
    cases xs with
    | nil => exact ihx c hc
    | cons y ys =>
      rw [dumpsItems] at hc
      rcases List.mem_append.mp hc with h | h
      · exact ihx c h
      · rcases List.mem_cons.mp h with h | h
        · subst h; decide
        · rcases List.mem_cons.mp h with h | h
          · subst h; decide
          · exact ihxs c h
  · intro c hc
    simp [dumpsFields] at hc
  · intro k v kvs ihv ihkvs c hc
    cases kvs with
    | nil =>
      rw [dumpsFields] at hc
      rcases List.mem_append.mp hc with h | h
      · exact quoteStr_ascii k c h
      · rcases List.mem_cons.mp h with h | h
        · subst h; decide
        · rcases List.mem_cons.mp h with h | h
          · subst h; decide
          · exact ihv c h
    | cons kv rest =>
      rw [dumpsFields] at hc
      rcases List.mem_append.mp hc with h | h
      · rcases List.mem_append.mp h with h | h
        · exact quoteStr_ascii k c h
        · rcases List.mem_cons.mp h with h | h
          · subst h; decide
          · rcases List.mem_cons.mp h with h | h
            · subst h; decide
            · exact ihv c h
      · rcases List.mem_cons.mp h with h | h
        · subst h; decide
        · rcases List.mem_cons.mp h with h | h
          · subst h; decide
          · exact ihkvs c h

theorem utf8Len_eq_length (cs : List Char) (h : ∀ c ∈ cs, c.toNat < 128) :
    utf8Len cs = cs.length := by
  induction cs with
  | nil => rfl
  | cons c cs ih =>
    have hc : utf8Size c = 1 := by
      rw [utf8Size, if_pos (h c (List.mem_cons_self c cs))]
    simp only [utf8Len, List.map_cons, List.sum_cons, hc, List.length_cons]
    rw [show (cs.map utf8Size).sum = utf8Len cs from rfl,
      ih (fun d hd => h d (List.mem_cons_of_mem c hd))]
    omega

/-- `dumps` output is pure ASCII (`ensure_ascii=True`), so its character
count — the `len()` the code puts in the header — coincides with its UTF-8
byte length. -/
theorem dumps_utf8Len_eq_length (v : Json) : utf8Len (dumps v) = (dumps v).length :=
  utf8Len_eq_length _ (fun c hc => Nat.lt_trans (dumps_ascii v c hc) (by omega))

/-- **C3** — every frame the client sends (request or notification) has
the exact shape `"Content-Length: <N>\r\n\r\n<json-body>"` with `N` the
byte length of the UTF-8 encoding of the JSON body.  (`json.dumps` with
`ensure_ascii=True` makes the body pure ASCII, so the character count the
code uses equals the UTF-8 byte count.) -/
theorem frame_content_length_is_utf8_byte_count
    (id : Int) (method : String) (params : Option Json) :
    (encodeFrame (dumps (requestObj id method params))
        = "Content-Length: ".data
            ++ natDigits (utf8Len (dumps (requestObj id method params)))
            ++ '\x0d' :: '\n' :: '\x0d' :: '\n' :: dumps (requestObj id method params)) ∧
    (encodeFrame (dumps (notificationObj method params))
        = "Content-Length: ".data
            ++ natDigits (utf8Len (dumps (notificationObj method params)))
            ++ '\x0d' :: '\n' :: '\x0d' :: '\n' :: dumps (notificationObj method params)) := by
  constructor <;> rw [encodeFrame, dumps_utf8Len_eq_length]

/- ### Inversion of the decimal rendering -/

theorem charToNat_inj {a b : Char} (h : a.toNat = b.toNat) : a = b := by
  have ha := Char.ofNat_toNat a
  rw [← ha, h, Char.ofNat_toNat]

theorem char_not_surrogate (c : Char) :
    c.toNat < 55296 ∨ (57343 < c.toNat ∧ c.toNat < 1114112) := by
  rcases c.valid with h | ⟨h1, h2⟩
  · exact Or.inl h
  · exact Or.inr ⟨h1, h2⟩

theorem natDigitsAux_zero : ∀ f, natDigitsAux f 0 = [] := by
  intro f; cases f <;> simp [natDigitsAux]

theorem natDigitsAux_stable (n : Nat) :
    ∀ f1 f2, n < f1 → n < f2 → natDigitsAux f1 n = natDigitsAux f2 n := by
  induction n using Nat.strong_induction_on with
  | _ n ih =>
    intro f1 f2 h1 h2
    cases f1 with
    | zero => omega
    | succ fa =>
      cases f2 with
      | zero => omega
      | succ fb =>
        rw [natDigitsAux, natDigitsAux]
        by_cases h0 : n = 0
        · simp [h0]
        · rw [if_neg h0, if_neg h0,
            ih (n / 10) (by omega) fa fb (by omega) (by omega)]

theorem natDigits_ge10 (n : Nat) (h : 10 ≤ n) :
    natDigits n = natDigits (n / 10) ++ [Char.ofNat (48 + n % 10)] := by
  rw [natDigits, natDigits, if_neg (by omega), if_neg (by omega), natDigitsAux,
    if_neg (by omega)]
  congr 1
  exact natDigitsAux_stable (n / 10) n (n / 10 + 1) (by omega) (by omega)

theorem natDigits_lt10 (n : Nat) (h : n < 10) : natDigits n = [Char.ofNat (48 + n)] := by
  rw [natDigits]
  by_cases h0 : n = 0
  · simp [h0]
  · rw [if_neg h0, natDigitsAux, if_neg h0,
      show n / 10 = 0 by omega, natDigitsAux_zero,
      show n % 10 = n by omega, List.nil_append]

theorem parseDigits_append (ds : List Char) : ∀ rest acc, (∀ c ∈ ds, isDig c = true) →
    (∀ c, rest.head? = some c → isDig c = false) →
    parseDigits (ds ++ rest) acc
      = (ds.foldl (fun a c => a * 10 + (c.toNat - 48)) acc, rest) := by
  induction ds with
  | nil =>
    intro rest acc _ hrest
    cases rest with
    | nil => rfl
    | cons c cs =>
      have hc := hrest c rfl
      simp [parseDigits, hc]
  | cons d ds ih =>
    intro rest acc hds hrest
    have hd : isDig d = true := hds d (by simp)
    rw [List.cons_append, parseDigits, if_pos hd, List.foldl_cons,
      ih rest _ (fun c hc => hds c (by simp [hc])) hrest]

theorem foldl_natDigits (n : Nat) : ∀ acc,
    (natDigits n).foldl (fun a c => a * 10 + (c.toNat - 48)) acc
      = acc * 10 ^ (natDigits n).length + n := by
  induction n using Nat.strong_induction_on with
  | _ n ih =>
    intro acc
    by_cases h : n < 10
    · rw [natDigits_lt10 n h]
      simp only [List.foldl_cons, List.foldl_nil, List.length_singleton,
        pow_one, digitChar_toNat n h]
      omega
    · rw [natDigits_ge10 n (by omega), List.foldl_append, ih (n / 10) (by omega) acc,
        List.length_append, List.length_singleton, List.foldl_cons, List.foldl_nil,
        digitChar_toNat (n % 10) (by omega), pow_succ]
      have hmod : 48 + n % 10 - 48 = n % 10 := by omega
      rw [hmod]
      have hsplit : (acc * 10 ^ (natDigits (n / 10)).length + n / 10) * 10 + n % 10
          = acc * (10 ^ (natDigits (n / 10)).length * 10) + (n / 10 * 10 + n % 10) := by
        ring
      rw [hsplit, show n / 10 * 10 + n % 10 = n from by omega]

theorem parseDigits_natDigits (n : Nat) (rest : List Char)
    (hrest : ∀ c, rest.head? = some c → isDig c = false) :
    parseDigits (natDigits n ++ rest) 0 = (n, rest) := by
  rw [parseDigits_append _ rest 0 (natDigits_digits n) hrest, foldl_natDigits]
  simp

/- ### Inversion of the string escaping -/

theorem hexVal_hexDigit : ∀ k < 16, hexVal (hexDigit k) = some k := by decide

theorem hex4At_hex4 (k : Nat) (r : List Char) (hk : k < 65536) :
    hex4At (hex4 k ++ r) = some k := by
  rw [hex4At, hex4]
  simp only [List.cons_append, List.nil_append, List.take_succ_cons, List.take_zero,
    hexVal_hexDigit (k / 4096 % 16) (Nat.mod_lt _ (by omega)),
    hexVal_hexDigit (k / 256 % 16) (Nat.mod_lt _ (by omega)),
    hexVal_hexDigit (k / 16 % 16) (Nat.mod_lt _ (by omega)),
    hexVal_hexDigit (k % 16) (Nat.mod_lt _ (by omega))]
  rw [show k / 4096 % 16 * 4096 + k / 256 % 16 * 256
        + k / 16 % 16 * 16 + k % 16 = k from by omega]

theorem parseUEscape_bmp (k : Nat) (r2 : List Char) (hk : k < 65536)
    (hno1 : ¬(55296 ≤ k ∧ k < 56320)) (hno2 : ¬(56320 ≤ k ∧ k < 57344)) :
    parseUEscape (hex4 k ++ r2) = .ok (Char.ofNat k, r2) := by
  rw [parseUEscape, hex4At_hex4 k r2 hk]
  simp only [if_neg hno1, if_neg hno2]
  rw [hex4]
  simp

theorem parseUEscape_pair (k : Nat) (r2 : List Char) (hk : 65536 ≤ k)
    (hk2 : k < 1114112) :
    parseUEscape (hex4 (55296 + (k - 65536) / 1024)
        ++ ('\\' :: 'u' :: (hex4 (56320 + (k - 65536) % 1024) ++ r2)))
      = .ok (Char.ofNat k, r2) := by
  have hdrop4 : (hex4 (55296 + (k - 65536) / 1024)
      ++ ('\\' :: 'u' :: (hex4 (56320 + (k - 65536) % 1024) ++ r2))).drop 4
      = '\\' :: 'u' :: (hex4 (56320 + (k - 65536) % 1024) ++ r2) := by
    rw [hex4]
    simp
  have hdrop6 : (hex4 (55296 + (k - 65536) / 1024)
      ++ ('\\' :: 'u' :: (hex4 (56320 + (k - 65536) % 1024) ++ r2))).drop 6
      = hex4 (56320 + (k - 65536) % 1024) ++ r2 := by
    rw [hex4]
    simp
  have hdrop10 : (hex4 (55296 + (k - 65536) / 1024)
      ++ ('\\' :: 'u' :: (hex4 (56320 + (k - 65536) % 1024) ++ r2))).drop 10
      = r2 := by
    rw [hex4, hex4]
    simp
  rw [parseUEscape]
  simp only [hex4At_hex4 (55296 + (k - 65536) / 1024)
      ('\\' :: 'u' :: (hex4 (56320 + (k - 65536) % 1024) ++ r2)) (by omega),
    hdrop4, hdrop6, hdrop10,
    hex4At_hex4 (56320 + (k - 65536) % 1024) r2 (by omega),
    if_pos (show 55296 ≤ 55296 + (k - 65536) / 1024
      ∧ 55296 + (k - 65536) / 1024 < 56320 from by omega),
    if_pos (show 56320 ≤ 56320 + (k - 65536) % 1024
      ∧ 56320 + (k - 65536) % 1024 < 57344 from by omega),
    List.take_succ_cons, List.take_zero, eq_self_iff_true, if_true, reduceIte]
  rw [show 65536 + (55296 + (k - 65536) / 1024 - 55296) * 1024
        + (56320 + (k - 65536) % 1024 - 56320) = k from by omega]

theorem psb_quote (f : Nat) (r : List Char) :
    parseStringBody (f + 1) ('"' :: r) = .ok ([], r) := by
  rw [parseStringBody, if_pos rfl]

theorem psb_esc_quote (f : Nat) (r : List Char) :
    parseStringBody (f + 1) ('\\' :: '"' :: r)
      = consResult '"' (parseStringBody f r) := by
  rw [parseStringBody]
  simp only [reduceIte, Char.reduceEq, List.head?_cons, List.tail_cons]

theorem psb_esc_back (f : Nat) (r : List Char) :
    parseStringBody (f + 1) ('\\' :: '\\' :: r)
      = consResult '\\' (parseStringBody f r) := by
  rw [parseStringBody]
  simp only [reduceIte, Char.reduceEq, List.head?_cons, List.tail_cons]

theorem psb_esc_b (f : Nat) (r : List Char) :
    parseStringBody (f + 1) ('\\' :: 'b' :: r)
      = consResult '\x08' (parseStringBody f r) := by
  rw [parseStringBody]
  simp only [reduceIte, Char.reduceEq, List.head?_cons, List.tail_cons]

theorem psb_esc_t (f : Nat) (r : List Char) :
    parseStringBody (f + 1) ('\\' :: 't' :: r)
      = consResult '\t' (parseStringBody f r) := by
  rw [parseStringBody]
  simp only [reduceIte, Char.reduceEq, List.head?_cons, List.tail_cons]

theorem psb_esc_n (f : Nat) (r : List Char) :
    parseStringBody (f + 1) ('\\' :: 'n' :: r)
      = consResult '\n' (parseStringBody f r) := by
  rw [parseStringBody]
  simp only [reduceIte, Char.reduceEq, List.head?_cons, List.tail_cons]

theorem psb_esc_f (f : Nat) (r : List Char) :
    parseStringBody (f + 1) ('\\' :: 'f' :: r)
      = consResult '\x0c' (parseStringBody f r) := by
  rw [parseStringBody]
  simp only [reduceIte, Char.reduceEq, List.head?_cons, List.tail_cons]

theorem psb_esc_r (f : Nat) (r : List Char) :
    parseStringBody (f + 1) ('\\' :: 'r' :: r)
      = consResult '\x0d' (parseStringBody f r) := by
  rw [parseStringBody]
  simp only [reduceIte, Char.reduceEq, List.head?_cons, List.tail_cons]

theorem psb_plain (f : Nat) (c : Char) (r : List Char) (h1 : ¬ c = '"')
    (h2 : ¬ c = '\\') (h3 : ¬ c.toNat < 32) :
    parseStringBody (f + 1) (c :: r) = consResult c (parseStringBody f r) := by
  rw [parseStringBody, if_neg h1, if_neg h2, if_neg h3]

theorem psb_u (f : Nat) (r : List Char) :
    parseStringBody (f + 1) ('\\' :: 'u' :: r)
      = (match parseUEscape r with
         | .ok (ch, r2) => consResult ch (parseStringBody f r2)
         | .error err => .error err) := by
  rw [parseStringBody]
  simp only [reduceIte, Char.reduceEq, List.head?_cons, List.tail_cons]

theorem psb_u_bmp (f : Nat) (k : Nat) (r2 : List Char) (hk : k < 65536)
    (hno1 : ¬(55296 ≤ k ∧ k < 56320)) (hno2 : ¬(56320 ≤ k ∧ k < 57344)) :
    parseStringBody (f + 1) ('\\' :: 'u' :: (hex4 k ++ r2))
      = consResult (Char.ofNat k) (parseStringBody f r2) := by
  rw [psb_u, parseUEscape_bmp k r2 hk hno1 hno2]

theorem psb_u_pair (f : Nat) (k : Nat) (r2 : List Char) (hk : 65536 ≤ k)
    (hk2 : k < 1114112) :
    parseStringBody (f + 1) ('\\' :: 'u' :: (hex4 (55296 + (k - 65536) / 1024)
        ++ ('\\' :: 'u' :: (hex4 (56320 + (k - 65536) % 1024) ++ r2))))
      = consResult (Char.ofNat k) (parseStringBody f r2) := by
  rw [psb_u, parseUEscape_pair k r2 hk hk2]

theorem parseStringBody_escape (s : List Char) : ∀ rest f, s.length < f →
    parseStringBody f (s.flatMap escChar ++ '"' :: rest) = .ok (s, rest) := by
  induction s with
  | nil =>
    intro rest f hf
    obtain ⟨g, rfl⟩ : ∃ g, f = g + 1 := ⟨f - 1, by omega⟩
    rw [List.flatMap_nil, List.nil_append, psb_quote]
  | cons c cs ih =>
    intro rest f hf
    obtain ⟨g, rfl⟩ : ∃ g, f = g + 1 := ⟨f - 1, by omega⟩
    have hg : cs.length < g := by simp at hf; omega
    rw [List.flatMap_cons, List.append_assoc, escChar]
    split_ifs with h1 h2 h3 h4 h5 h6 h7 h8 h9 h10
    · subst h1
      rw [List.cons_append, List.cons_append, List.nil_append, psb_esc_quote,
        ih _ g hg]
      rfl
    · subst h2
      rw [List.cons_append, List.cons_append, List.nil_append, psb_esc_back,
        ih _ g hg]
      rfl
    · have hc : c = '\x08' := charToNat_inj (by rw [h3]; rfl)
      subst hc
      rw [List.cons_append, List.cons_append, List.nil_append, psb_esc_b,
        ih _ g hg]
      rfl
    · have hc : c = '\t' := charToNat_inj (by rw [h4]; rfl)
      subst hc
      rw [List.cons_append, List.cons_append, List.nil_append, psb_esc_t,
        ih _ g hg]
      rfl
    · have hc : c = '\n' := charToNat_inj (by rw [h5]; rfl)
      subst hc
      rw [List.cons_append, List.cons_append, List.nil_append, psb_esc_n,
        ih _ g hg]
      rfl
    · have hc : c = '\x0c' := charToNat_inj (by rw [h6]; rfl)
      subst hc
      rw [List.cons_append, List.cons_append, List.nil_append, psb_esc_f,
        ih _ g hg]
      rfl
    · have hc : c = '\x0d' := charToNat_inj (by rw [h7]; rfl)
      subst hc
      rw [List.cons_append, List.cons_append, List.nil_append, psb_esc_r,
        ih _ g hg]
      rfl
    · -- \uXXXX escape of a control character
      rw [List.cons_append, List.cons_append, psb_u_bmp g c.toNat _ (by omega)
          (by omega) (by omega), Char.ofNat_toNat, ih _ g hg]
      rfl
    · -- plain printable character
      rw [List.singleton_append, psb_plain g c _ h1 h2 (by omega), ih _ g hg]
      rfl
    · -- \uXXXX escape of a BMP character (never a surrogate: `c` is a scalar)
      have hv := char_not_surrogate c
      rw [List.cons_append, List.cons_append, psb_u_bmp g c.toNat _ (by omega)
          (by omega) (by omega), Char.ofNat_toNat, ih _ g hg]
      rfl
    · -- surrogate-pair escape of an astral character
      have hv := char_not_surrogate c
      rw [List.append_assoc, List.cons_append, List.cons_append, List.cons_append,
        List.cons_append, psb_u_pair g c.toNat _ (by omega) (by omega),
        Char.ofNat_toNat, ih _ g hg]
      rfl

/- ### Round trip of whole values -/

theorem natDigits_head_dig (n : Nat) :
    ∃ c t, natDigits n = c :: t ∧ isDig c = true := by
  rcases hd : natDigits n with _ | ⟨c, t⟩
  · exfalso
    rw [natDigits] at hd
    by_cases h0 : n = 0
    · simp [h0] at hd
    · rw [if_neg h0, natDigitsAux, if_neg h0] at hd
      simp at hd
  · exact ⟨c, t, rfl, natDigits_digits n c (by rw [hd]; simp)⟩

/-- `dumps` output is nonempty and begins with a character that is not
whitespace, not a separator and not a closer. -/
theorem dumps_head (v : Json) :
    ∃ c t, dumps v = c :: t ∧ isJWs c = false
      ∧ c ≠ ']' ∧ c ≠ '\x7d' ∧ c ≠ ',' ∧ c ≠ ':' := by
  have hdig : ∀ c : Char, isDig c = true →
      isJWs c = false ∧ c ≠ ']' ∧ c ≠ '\x7d' ∧ c ≠ ',' ∧ c ≠ ':' := by
    intro c hc
    obtain ⟨hlo, hhi⟩ := isDig_bounds c hc
    refine ⟨?_, ?_, ?_, ?_, ?_⟩
    · simp only [isJWs, Bool.or_eq_false_iff, decide_eq_false_iff_not]
      refine ⟨⟨⟨?_, ?_⟩, ?_⟩, ?_⟩ <;> intro h <;> subst h <;> simp_all
    all_goals intro h; subst h; simp_all
  cases v with
  | null => exact ⟨'n', _, rfl, by decide, by decide, by decide, by decide, by decide⟩
  | bool b =>
    cases b
    · exact ⟨'f', _, rfl, by decide, by decide, by decide, by decide, by decide⟩
    · exact ⟨'t', _, rfl, by decide, by decide, by decide, by decide, by decide⟩
  | num i =>
    rw [dumps, intChars]
    split_ifs with hneg
    · exact ⟨'-', _, rfl, by decide, by decide, by decide, by decide, by decide⟩
    · obtain ⟨c, t, hct, hc⟩ := natDigits_head_dig i.toNat
      exact ⟨c, t, hct, hdig c hc⟩
  | str s => exact ⟨'"', _, rfl, by decide, by decide, by decide, by decide, by decide⟩
  | arr xs => exact ⟨'[', _, rfl, by decide, by decide, by decide, by decide, by decide⟩
  | obj kvs => exact ⟨'\x7b', _, rfl, by decide, by decide, by decide, by decide, by decide⟩

theorem skipWs_not_ws {c : Char} (h : isJWs c = false) (r : List Char) :
    skipWs (c :: r) = c :: r := by
  rw [skipWs, if_neg (by simp [h])]

theorem skipWs_dumps (v : Json) (r : List Char) :
    skipWs (dumps v ++ r) = dumps v ++ r := by
  obtain ⟨c, t, hct, hws, -⟩ := dumps_head v
  rw [hct, List.cons_append, skipWs_not_ws hws]

theorem skipWs_space (r : List Char) : skipWs (' ' :: r) = skipWs r := by
  rw [skipWs, if_pos (by decide)]

theorem natDigits_ne_nil (n : Nat) : natDigits n ≠ [] := by
  obtain ⟨c, t, hct, -⟩ := natDigits_head_dig n
  simp [hct]

theorem pbound_le : ∀ v : Json, pbound v ≤ (dumps v).length := by
  apply Json.induct (fun v => pbound v ≤ (dumps v).length)
    (fun xs => pboundItems xs ≤ (dumpsItems xs).length + 1)
    (fun kvs => pboundFields kvs ≤ (dumpsFields kvs).length + 1)
  · simp [pbound, dumps]
  · intro b; cases b <;> simp [pbound, dumps]
  · intro i
    simp only [pbound, dumps, intChars]
    split_ifs
    · simp
    · rcases hn : natDigits i.toNat with _ | ⟨c, t⟩
      · exact absurd hn (natDigits_ne_nil _)
      · simp
  · intro s
    simp [pbound, dumps, quoteStr]
  · intro xs ih
    simp only [pbound, dumps, List.length_cons, List.length_append,
      List.length_singleton]
    omega
  · intro kvs ih
    simp only [pbound, dumps, List.length_cons, List.length_append,
      List.length_singleton]
    omega
  · simp [pboundItems, dumpsItems]
  · intro x xs ihx ihxs
    cases xs with
    | nil => simp only [pboundItems, dumpsItems]; omega
    | cons y ys =>
      simp only [pboundItems, dumpsItems, List.length_append, List.length_cons]
      omega
  · simp [pboundFields, dumpsFields]
  · intro k v kvs ihv ihkvs
    cases kvs with
    | nil =>
      simp only [pboundFields, dumpsFields, List.length_append, List.length_cons]
      omega
    | cons kv rest =>
      simp only [pboundFields, dumpsFields, List.length_append, List.length_cons]
      omega

theorem escChar_len_pos (c : Char) : 1 ≤ (escChar c).length := by
  rw [escChar]
  split_ifs <;> simp [hex4]

theorem flatMap_escChar_len (s : List Char) :
    s.length ≤ (s.flatMap escChar).length := by
  induction s with
  | nil => simp
  | cons c cs ih =>
    rw [List.flatMap_cons, List.length_append, List.length_cons]
    have := escChar_len_pos c
    omega

theorem delim_not_dig {rest : List Char} (h : delimHead rest) :
    ∀ c, rest.head? = some c → isDig c = false := by
  intro c hc
  cases rest with
  | nil => simp at hc
  | cons d t =>
    simp only [List.head?_cons, Option.some.injEq] at hc
    subst hc
    rcases h with h | h | h <;> subst h <;> decide

theorem natDigits_head_ne_zero (n : Nat) (hn : n ≠ 0) :
    ∀ c t, natDigits n = c :: t → ¬ c = '0' := by
  induction n using Nat.strong_induction_on with
  | _ n ih =>
    intro c t hct
    by_cases h10 : n < 10
    · rw [natDigits_lt10 n h10] at hct
      simp only [List.cons.injEq] at hct
      obtain ⟨rfl, -⟩ := hct
      intro he
      have := congrArg Char.toNat he
      rw [digitChar_toNat n h10] at this
      simp only [show ('0' : Char).toNat = 48 from rfl] at this
      omega
    · rw [natDigits_ge10 n (by omega)] at hct
      rcases hh : natDigits (n / 10) with _ | ⟨c2, t2⟩
      · exact absurd hh (natDigits_ne_nil _)
      · rw [hh, List.cons_append] at hct
        simp only [List.cons.injEq] at hct
        obtain ⟨rfl, -⟩ := hct
        exact ih (n / 10) (by omega) (by omega) c2 t2 hh
theorem dumpsItems_head (xs : List Json) (hne : xs ≠ []) :
    ∃ c t, dumpsItems xs = c :: t ∧ isJWs c = false
      ∧ c ≠ ']' ∧ c ≠ '\x7d' ∧ c ≠ ',' ∧ c ≠ ':' := by
  cases xs with
  | nil => exact absurd rfl hne
  | cons x xs =>
    obtain ⟨c, t, hct, hp⟩ := dumps_head x
    cases xs with
    | nil => exact ⟨c, t, by rw [dumpsItems, hct], hp⟩
    | cons y ys =>
      refine ⟨c, t ++ ',' :: ' ' :: dumpsItems (y :: ys), ?_, hp⟩
      rw [dumpsItems, hct, List.cons_append]

theorem dumpsFields_head (kvs : List (String × Json)) (hne : kvs ≠ []) :
    ∃ t, dumpsFields kvs = '"' :: t := by
  cases kvs with
  | nil => exact absurd rfl hne
  | cons kv rest =>
    obtain ⟨k, v⟩ := kv
    cases rest with
    | nil => exact ⟨_, by rw [dumpsFields, quoteStr, List.cons_append]; rfl⟩
    | cons kv2 rest2 =>
      exact ⟨_, by
        rw [dumpsFields, quoteStr, List.cons_append, List.cons_append]; rfl⟩

theorem isDig_not_special (c : Char) (h : isDig c = true) :
    ¬ c = '"' ∧ ¬ c = '[' ∧ ¬ c = '\x7b' ∧ ¬ c = 'n' ∧ ¬ c = 't' ∧ ¬ c = 'f'
      ∧ ¬ c = '-' := by
  refine ⟨?_, ?_, ?_, ?_, ?_, ?_, ?_⟩ <;> intro he <;> subst he <;> simp [isDig] at h

theorem pv_str (f : Nat) (r : List Char) :
    parseValue (f + 1) ('"' :: r)
      = (match parseStringBody (r.length + 1) r with
         | .ok (s, r2) => .ok (.str (String.mk s), r2)
         | .error e => .error e) := by
  rw [parseValue, if_pos rfl]

theorem pv_arr (f : Nat) (r : List Char) :
    parseValue (f + 1) ('[' :: r)
      = (match skipWs r with
         | [] => .error .jsonDecode
         | c1 :: r1 =>
           if c1 = ']' then .ok (.arr [], r1)
           else
             match parseItems f (c1 :: r1) with
             | .ok (xs, r2) => .ok (.arr xs, r2)
             | .error e => .error e) := by
  rw [parseValue]
  simp only [reduceIte, Char.reduceEq]

theorem pv_obj (f : Nat) (r : List Char) :
    parseValue (f + 1) ('\x7b' :: r)
      = (match skipWs r with
         | [] => .error .jsonDecode
         | c1 :: r1 =>
           if c1 = '\x7d' then .ok (.obj [], r1)
           else
             match parseFields f (c1 :: r1) with
             | .ok (kvs, r2) => .ok (.obj kvs, r2)
             | .error e => .error e) := by
  rw [parseValue]
  simp only [reduceIte, Char.reduceEq]

theorem pv_null (f : Nat) (r : List Char) :
    parseValue (f + 1) ('n' :: r)
      = (if r.take 3 = ['u', 'l', 'l'] then .ok (.null, r.drop 3)
         else .error .jsonDecode) := by
  rw [parseValue]
  simp only [reduceIte, Char.reduceEq]

theorem pv_true (f : Nat) (r : List Char) :
    parseValue (f + 1) ('t' :: r)
      = (if r.take 3 = ['r', 'u', 'e'] then .ok (.bool true, r.drop 3)
         else .error .jsonDecode) := by
  rw [parseValue]
  simp only [reduceIte, Char.reduceEq]

theorem pv_false (f : Nat) (r : List Char) :
    parseValue (f + 1) ('f' :: r)
      = (if r.take 4 = ['a', 'l', 's', 'e'] then .ok (.bool false, r.drop 4)
         else .error .jsonDecode) := by
  rw [parseValue]
  simp only [reduceIte, Char.reduceEq]

theorem pv_zero (f : Nat) (r : List Char) :
    parseValue (f + 1) ('0' :: r) = .ok (.num 0, r) := by
  rw [parseValue]
  simp only [reduceIte, Char.reduceEq]

theorem pv_neg (f : Nat) (r : List Char) :
    parseValue (f + 1) ('-' :: r)
      = (match r.head? with
         | none => .error .jsonDecode
         | some c2 =>
           if c2 = '0' then .ok (.num 0, r.tail)
           else if isDig c2 then
             .ok (.num (-((parseDigits r 0).1 : Int)), (parseDigits r 0).2)
           else .error .jsonDecode) := by
  rw [parseValue]
  simp only [reduceIte, Char.reduceEq]

theorem pv_digit (f : Nat) (c : Char) (r : List Char) (hd : isDig c = true)
    (h0 : ¬ c = '0') :
    parseValue (f + 1) (c :: r)
      = .ok (.num ((parseDigits (c :: r) 0).1 : Int), (parseDigits (c :: r) 0).2) := by
  obtain ⟨n1, n2, n3, n4, n5, n6, n7⟩ := isDig_not_special c hd
  rw [parseValue, if_neg n1, if_neg n2, if_neg n3, if_neg n4, if_neg n5, if_neg n6,
    if_neg n7, if_neg h0, if_pos hd]

theorem skipWs_comma (r : List Char) : skipWs (',' :: r) = ',' :: r :=
  skipWs_not_ws (by decide) r

theorem skipWs_rbrack (r : List Char) : skipWs (']' :: r) = ']' :: r :=
  skipWs_not_ws (by decide) r

theorem skipWs_rbrace (r : List Char) : skipWs ('\x7d' :: r) = '\x7d' :: r :=
  skipWs_not_ws (by decide) r

theorem skipWs_colon (r : List Char) : skipWs (':' :: r) = ':' :: r :=
  skipWs_not_ws (by decide) r

/-- Parsing inverts printing for a whole JSON value: on `dumps v` followed
by any delimiter continuation, `parseValue` returns exactly `v` and leaves
the continuation, given fuel at least `pbound v`. -/
theorem parse_dumps : ∀ v : Json, ∀ fuel rest, pbound v ≤ fuel → delimHead rest →
    parseValue fuel (dumps v ++ rest) = .ok (v, rest) := by
  apply Json.induct
    (fun v => ∀ fuel rest, pbound v ≤ fuel → delimHead rest →
      parseValue fuel (dumps v ++ rest) = .ok (v, rest))
    (fun xs => ∀ fuel rest, pboundItems xs ≤ fuel → delimHead rest → xs ≠ [] →
      parseItems fuel (dumpsItems xs ++ ']' :: rest) = .ok (xs, rest))
    (fun kvs => ∀ fuel rest, pboundFields kvs ≤ fuel → delimHead rest → kvs ≠ [] →
      parseFields fuel (dumpsFields kvs ++ '\x7d' :: rest) = .ok (kvs, rest))
  · -- null
    intro fuel rest hf hr
    simp only [pbound] at hf
    obtain ⟨g, rfl⟩ : ∃ g, fuel = g + 1 := ⟨fuel - 1, by omega⟩
    rw [show dumps Json.null ++ rest = 'n' :: 'u' :: 'l' :: 'l' :: rest from rfl,
      pv_null]
    simp
  · -- bool
    intro b fuel rest hf hr
    simp only [pbound] at hf
    obtain ⟨g, rfl⟩ : ∃ g, fuel = g + 1 := ⟨fuel - 1, by omega⟩
    cases b
    · rw [show dumps (Json.bool false) ++ rest
          = 'f' :: 'a' :: 'l' :: 's' :: 'e' :: rest from rfl, pv_false]
      simp
    · rw [show dumps (Json.bool true) ++ rest
          = 't' :: 'r' :: 'u' :: 'e' :: rest from rfl, pv_true]
      simp
  · -- num
    intro i fuel rest hf hr
    simp only [pbound] at hf
    obtain ⟨g, rfl⟩ : ∃ g, fuel = g + 1 := ⟨fuel - 1, by omega⟩
    rw [dumps, intChars]
    by_cases hneg : i < 0
    · rw [if_pos hneg, List.cons_append, pv_neg]
      have hm : (-i).toNat ≠ 0 := by omega
      obtain ⟨c, t, hct, hcd⟩ := natDigits_head_dig (-i).toNat
      have hc0 : ¬ c = '0' := natDigits_head_ne_zero _ hm c t hct
      have hpd := parseDigits_natDigits (-i).toNat rest (delim_not_dig hr)
      rw [hct] at hpd ⊢
      rw [List.cons_append] at hpd ⊢
      simp only [List.head?_cons, if_neg hc0, if_pos hcd, hpd]
      have hcast : (((-i).toNat : Int)) = -i := by omega
      rw [hcast]
      simp
    · rw [if_neg hneg]
      by_cases hz : i.toNat = 0
      · have hi0 : i = 0 := by omega
        subst hi0
        rw [show natDigits (0 : Int).toNat = ['0'] from rfl, List.cons_append,
          List.nil_append, pv_zero]
      · obtain ⟨c, t, hct, hcd⟩ := natDigits_head_dig i.toNat
        have hc0 : ¬ c = '0' := natDigits_head_ne_zero _ hz c t hct
        have hpd := parseDigits_natDigits i.toNat rest (delim_not_dig hr)
        rw [hct] at hpd ⊢
        rw [List.cons_append] at hpd ⊢
        rw [pv_digit g c _ hcd hc0, hpd]
        have hcast : ((i.toNat : Int)) = i := by omega
        rw [hcast]
  · -- str
    intro s fuel rest hf hr
    simp only [pbound] at hf
    obtain ⟨g, rfl⟩ : ∃ g, fuel = g + 1 := ⟨fuel - 1, by omega⟩
    rw [dumps, quoteStr]
    simp only [List.append_assoc, List.cons_append, List.singleton_append,
      List.nil_append]
    rw [pv_str, parseStringBody_escape s.data rest
      ((s.data.flatMap escChar ++ '"' :: rest).length + 1) (by
        have h1 := flatMap_escChar_len s.data
        simp only [List.length_append, List.length_cons]
        omega)]
  · -- arr
    intro xs ihQ fuel rest hf hr
    simp only [pbound] at hf
    obtain ⟨g, rfl⟩ : ∃ g, fuel = g + 1 := ⟨fuel - 1, by omega⟩
    rw [dumps]
    simp only [List.append_assoc, List.cons_append, List.singleton_append,
      List.nil_append]
    rw [pv_arr]
    cases xs with
    | nil =>
      rw [show dumpsItems ([] : List Json) = [] from rfl, List.nil_append,
        skipWs_rbrack]
      simp
    | cons x xs2 =>
      obtain ⟨c0, t0, hct, hws, hrb, hcb, hcm, hcl⟩ := dumpsItems_head (x :: xs2) (List.cons_ne_nil _ _)
      have hstep := ihQ g rest (by omega) hr (List.cons_ne_nil _ _)
      rw [hct, List.cons_append] at hstep
      rw [hct, List.cons_append, skipWs_not_ws hws]
      simp only [if_neg hrb, hstep]
  · -- obj
    intro kvs ihR fuel rest hf hr
    simp only [pbound] at hf
    obtain ⟨g, rfl⟩ : ∃ g, fuel = g + 1 := ⟨fuel - 1, by omega⟩
    rw [dumps]
    simp only [List.append_assoc, List.cons_append, List.singleton_append,
      List.nil_append]
    rw [pv_obj]
    cases kvs with
    | nil =>
      rw [show dumpsFields ([] : List (String × Json)) = [] from rfl, List.nil_append,
        skipWs_rbrace]
      simp
    | cons kv kvs2 =>
      obtain ⟨t0, hct⟩ := dumpsFields_head (kv :: kvs2) (List.cons_ne_nil _ _)
      have hstep := ihR g rest (by omega) hr (List.cons_ne_nil _ _)
      rw [hct, List.cons_append] at hstep
      rw [hct, List.cons_append, skipWs_not_ws (by decide)]
      simp only [if_neg (show ¬('"' : Char) = '\x7d' from by decide), hstep]
  · -- items nil (vacuous)
    intro fuel rest _ _ hne
    exact absurd rfl hne
  · -- items cons
    intro x xs ihP ihQ fuel rest hf hr _
    cases xs with
    | nil =>
      simp only [pboundItems] at hf
      obtain ⟨g, rfl⟩ : ∃ g, fuel = g + 1 := ⟨fuel - 1, by omega⟩
      rw [parseItems, show dumpsItems [x] = dumps x from by rw [dumpsItems]]
      have hstep := ihP g (']' :: rest) (by omega) (Or.inr (Or.inl rfl))
      rw [hstep]
      simp only [skipWs_rbrack, reduceIte, Char.reduceEq]
    | cons y ys =>
      simp only [pboundItems] at hf
      obtain ⟨g, rfl⟩ : ∃ g, fuel = g + 1 := ⟨fuel - 1, by omega⟩
      rw [parseItems, dumpsItems]
      simp only [List.append_assoc, List.cons_append, List.singleton_append,
        List.nil_append]
      have hstep := ihP g (',' :: ' ' :: (dumpsItems (y :: ys) ++ ']' :: rest))
        (by omega) (Or.inl rfl)
      rw [hstep]
      simp only [skipWs_comma, if_neg (show ¬(',' : Char) = ']' from by decide),
        if_pos (rfl : (',' : Char) = ','), skipWs_space]
      obtain ⟨c0, t0, hct, hws, -⟩ := dumpsItems_head (y :: ys) (List.cons_ne_nil _ _)
      have hstep2 := ihQ g rest (by omega) hr (List.cons_ne_nil _ _)
      rw [hct, List.cons_append] at hstep2 ⊢
      rw [skipWs_not_ws hws, hstep2]
      simp
  · -- fields nil (vacuous)
    intro fuel rest _ _ hne
    exact absurd rfl hne
  · -- fields cons
    intro k v kvs ihP ihR fuel rest hf hr _
    cases kvs with
    | nil =>
      simp only [pboundFields] at hf
      obtain ⟨g, rfl⟩ : ∃ g, fuel = g + 1 := ⟨fuel - 1, by omega⟩
      rw [dumpsFields, quoteStr]
      simp only [List.append_assoc, List.cons_append, List.singleton_append,
        List.nil_append]
      rw [parseFields, if_pos rfl, parseStringBody_escape k.data
        (':' :: ' ' :: (dumps v ++ '\x7d' :: rest))
        ((k.data.flatMap escChar
          ++ '"' :: ':' :: ' ' :: (dumps v ++ '\x7d' :: rest)).length + 1) (by
          have h1 := flatMap_escChar_len k.data
          simp only [List.length_append, List.length_cons]
          omega)]
      simp only [skipWs_colon, if_pos (rfl : (':' : Char) = ':'), skipWs_space]
      have hstep := ihP g ('\x7d' :: rest) (by omega) (Or.inr (Or.inr rfl))
      rw [skipWs_dumps, hstep]
      simp only [skipWs_rbrace, reduceIte, Char.reduceEq]
    | cons kv2 kvs2 =>
      simp only [pboundFields] at hf
      obtain ⟨g, rfl⟩ : ∃ g, fuel = g + 1 := ⟨fuel - 1, by omega⟩
      rw [dumpsFields, quoteStr]
      simp only [List.append_assoc, List.cons_append, List.singleton_append,
        List.nil_append]
      rw [parseFields, if_pos rfl, parseStringBody_escape k.data
        (':' :: ' ' :: (dumps v
          ++ ',' :: ' ' :: (dumpsFields (kv2 :: kvs2) ++ '\x7d' :: rest)))
        ((k.data.flatMap escChar ++ '"' :: ':' :: ' ' :: (dumps v
          ++ ',' :: ' ' :: (dumpsFields (kv2 :: kvs2) ++ '\x7d' :: rest))).length
          + 1) (by
          have h1 := flatMap_escChar_len k.data
          simp only [List.length_append, List.length_cons]
          omega)]
      simp only [skipWs_colon, if_pos (rfl : (':' : Char) = ':'), skipWs_space]
      have hstep := ihP g
        (',' :: ' ' :: (dumpsFields (kv2 :: kvs2) ++ '\x7d' :: rest))
        (by omega) (Or.inl rfl)
      rw [skipWs_dumps, hstep]
      simp only [skipWs_comma,
        if_neg (show ¬(',' : Char) = '\x7d' from by decide),
        if_pos (rfl : (',' : Char) = ','), skipWs_space]
      obtain ⟨t0, hct⟩ := dumpsFields_head (kv2 :: kvs2) (List.cons_ne_nil _ _)
      have hstep2 := ihR g rest (by omega) hr (List.cons_ne_nil _ _)
      rw [hct, List.cons_append] at hstep2 ⊢
      rw [skipWs_not_ws (by decide), hstep2]
      simp

/-- `json.loads` inverts `json.dumps`. -/
theorem loads_dumps (v : Json) : loads (dumps v) = .ok v := by
  have h1 : skipWs (dumps v) = dumps v := by
    obtain ⟨c, t, hct, hws, -⟩ := dumps_head v
    rw [hct, skipWs_not_ws hws]
  have h2 := parse_dumps v ((dumps v).length + 1) []
    (by have := pbound_le v; omega) trivial
  rw [List.append_nil] at h2
  rw [loads, h1, h2]
  rfl

/- ### Decoding an encoded frame -/

theorem ends4_append_not_nl {l : List Char} {c : Char} (h : ¬ c = '\n') :
    ends4 (l ++ [c]) = false := by
  simp only [ends4, List.reverse_append, List.reverse_cons, List.reverse_nil,
    List.nil_append, List.cons_append, List.take_succ_cons,
    decide_eq_false_iff_not]
  intro he
  simp only [List.cons.injEq] at he
  exact h he.1

theorem ends4_append_crlf {l : List Char} (h : '\n' ∉ l) :
    ends4 (l ++ ['\x0d', '\n']) = false := by
  simp only [ends4, List.reverse_append, List.reverse_cons, List.reverse_nil,
    List.nil_append, List.cons_append, List.take_succ_cons,
    decide_eq_false_iff_not]
  intro he
  simp only [List.cons.injEq] at he
  have h2 : l.reverse.take 2 = ['\n', '\x0d'] := he.2.2
  have hmem : '\n' ∈ l.reverse.take 2 := by rw [h2]; simp
  exact h (List.mem_reverse.mp (List.mem_of_mem_take hmem))

theorem ends4_tag (l : List Char) :
    ends4 (l ++ ['\x0d', '\n', '\x0d', '\n']) = true := by
  simp [ends4, List.reverse_append]

theorem readHeader_tag (acc : List Char) (ys : List Char) (h : '\n' ∉ acc) :
    readHeader ('\x0d' :: '\n' :: '\x0d' :: '\n' :: ys) acc
      = .ok (acc ++ ['\x0d', '\n', '\x0d', '\n'], ys) := by
  have e1 : ends4 (acc ++ ['\x0d']) = false := ends4_append_not_nl (by decide)
  have e2 : ends4 (acc ++ ['\x0d'] ++ ['\n']) = false := by
    rw [List.append_assoc]
    exact ends4_append_crlf h
  have e3 : ends4 (acc ++ ['\x0d'] ++ ['\n'] ++ ['\x0d']) = false :=
    ends4_append_not_nl (by decide)
  have e4 : ends4 (acc ++ ['\x0d'] ++ ['\n'] ++ ['\x0d'] ++ ['\n']) = true := by
    have : acc ++ ['\x0d'] ++ ['\n'] ++ ['\x0d'] ++ ['\n']
        = acc ++ ['\x0d', '\n', '\x0d', '\n'] := by
      simp [List.append_assoc]
    rw [this]
    exact ends4_tag acc
  rw [readHeader, if_neg (by rw [e1]; simp),
    readHeader, if_neg (by rw [e2]; simp),
    readHeader, if_neg (by rw [e3]; simp),
    readHeader, if_pos (by rw [e4])]
  simp [List.append_assoc]

theorem readHeader_no_nl (core : List Char) : ∀ acc ys, (∀ c ∈ core, ¬ c = '\n') →
    readHeader (core ++ ys) acc = readHeader ys (acc ++ core) := by
  induction core with
  | nil => intro acc ys _; rw [List.nil_append, List.append_nil]
  | cons c cs ih =>
    intro acc ys hno
    rw [List.cons_append, readHeader,
      if_neg (by simp [ends4_append_not_nl (hno c (by simp))]),
      ih (acc ++ [c]) ys (fun d hd => hno d (by simp [hd])), List.append_assoc,
      List.singleton_append]

theorem ends4_append_crlf2 {l : List Char}
    (h : ¬ l.reverse.take 2 = ['\n', '\x0d']) :
    ends4 (l ++ ['\x0d', '\n']) = false := by
  simp only [ends4, List.reverse_append, List.reverse_cons, List.reverse_nil,
    List.nil_append, List.cons_append, List.take_succ_cons,
    decide_eq_false_iff_not]
  intro he
  simp only [List.cons.injEq] at he
  exact h he.2.2

theorem readHeader_tag2 (acc : List Char) (ys : List Char)
    (h : ¬ acc.reverse.take 2 = ['\n', '\x0d']) :
    readHeader ('\x0d' :: '\n' :: '\x0d' :: '\n' :: ys) acc
      = .ok (acc ++ ['\x0d', '\n', '\x0d', '\n'], ys) := by
  have e1 : ends4 (acc ++ ['\x0d']) = false := ends4_append_not_nl (by decide)
  have e2 : ends4 (acc ++ ['\x0d'] ++ ['\n']) = false := by
    rw [List.append_assoc]
    exact ends4_append_crlf2 h
  have e3 : ends4 (acc ++ ['\x0d'] ++ ['\n'] ++ ['\x0d']) = false :=
    ends4_append_not_nl (by decide)
  have e4 : ends4 (acc ++ ['\x0d'] ++ ['\n'] ++ ['\x0d'] ++ ['\n']) = true := by
    have h2 : acc ++ ['\x0d'] ++ ['\n'] ++ ['\x0d'] ++ ['\n']
        = acc ++ ['\x0d', '\n', '\x0d', '\n'] := by
      simp [List.append_assoc]
    rw [h2]
    exact ends4_tag acc
  rw [readHeader, if_neg (by rw [e1]; simp),
    readHeader, if_neg (by rw [e2]; simp),
    readHeader, if_neg (by rw [e3]; simp),
    readHeader, if_pos (by rw [e4])]
  simp [List.append_assoc]

theorem readHeader_mid_crlf (acc : List Char) (ys : List Char)
    (h : ¬ acc.reverse.take 2 = ['\n', '\x0d']) :
    readHeader ('\x0d' :: '\n' :: ys) acc = readHeader ys (acc ++ ['\x0d', '\n']) := by
  have e1 : ends4 (acc ++ ['\x0d']) = false := ends4_append_not_nl (by decide)
  have e2 : ends4 (acc ++ ['\x0d'] ++ ['\n']) = false := by
    rw [List.append_assoc]
    exact ends4_append_crlf2 h
  rw [readHeader, if_neg (by rw [e1]; simp),
    readHeader, if_neg (by rw [e2]; simp), List.append_assoc]
  rfl

theorem readHeader_error (s : List Char) : ∀ acc e,
    readHeader s acc = .error e → e = .connectionClosed := by
  induction s with
  | nil =>
    intro acc e h
    exact (Except.error.inj h).symm
  | cons c cs ih =>
    intro acc e h
    rw [readHeader] at h
    split_ifs at h
    all_goals first
      | exact absurd h (by simp)
      | exact ih _ _ h

theorem readHeader_eof (s : List Char) : ∀ acc,
    (∀ i, 1 ≤ i → i ≤ s.length → ends4 (acc ++ s.take i) = false) →
    readHeader s acc = .error .connectionClosed := by
  induction s with
  | nil => intro acc _; rfl
  | cons c cs ih =>
    intro acc hno
    have h1 : ends4 (acc ++ [c]) = false := by
      have := hno 1 (by omega) (by simp)
      simpa using this
    rw [readHeader, if_neg (by rw [h1]; simp)]
    refine ih (acc ++ [c]) ?_
    intro i h1i hlen
    have := hno (i + 1) (by omega) (by simp; omega)
    rw [List.take_succ_cons] at this
    rw [List.append_assoc]
    simpa using this

theorem pyInt_error (cs : List Char) (e : PyErr) (h : pyInt cs = .error e) :
    e = .badIntLiteral := by
  rw [pyInt] at h
  split at h <;> split_ifs at h <;> exact (Except.error.inj h).symm

theorem consResult_error (c : Char) (r : Except PyErr (List Char × List Char))
    (e : PyErr) (h : consResult c r = .error e) : r = .error e := by
  rcases r with e2 | ⟨s, r2⟩
  · exact h
  · exact absurd h (by simp [consResult])

theorem parseUEscape_error (r : List Char) (e : PyErr)
    (h : parseUEscape r = .error e) : e = .jsonDecode := by
  rw [parseUEscape] at h
  split at h
  · exact (Except.error.inj h).symm
  · rename_i n heq
    by_cases h1 : 55296 ≤ n ∧ n < 56320
    · rw [if_pos h1] at h
      by_cases h2 : (r.drop 4).take 2 = ['\\', 'u']
      · rw [if_pos h2] at h
        split at h
        · exact (Except.error.inj h).symm
        · rename_i m heq2
          by_cases h3 : 56320 ≤ m ∧ m < 57344
          · rw [if_pos h3] at h
            exact Except.noConfusion h
          · rw [if_neg h3] at h
            exact (Except.error.inj h).symm
      · rw [if_neg h2] at h
        exact (Except.error.inj h).symm
    · rw [if_neg h1] at h
      by_cases h4 : 56320 ≤ n ∧ n < 57344
      · rw [if_pos h4] at h
        exact (Except.error.inj h).symm
      · rw [if_neg h4] at h
        exact Except.noConfusion h

theorem parseStringBody_error (fuel : Nat) : ∀ cs e,
    parseStringBody fuel cs = .error e → e = .jsonDecode := by
  induction fuel with
  | zero =>
    intro cs e h
    exact (Except.error.inj h).symm
  | succ f ih =>
    intro cs e h
    rcases cs with _ | ⟨c, rest⟩
    · exact (Except.error.inj h).symm
    · rw [parseStringBody] at h
      repeat'
        first
          | exact (Except.error.inj h).symm
          | exact Except.noConfusion h
          | exact ih _ _ (consResult_error _ _ _ h)
          | (rename_i err heq
             exact (Except.error.inj h) ▸ parseUEscape_error _ _ heq)
          | split_ifs at h
          | split at h

theorem parse_error_classify (fuel : Nat) :
    (∀ cs e, parseValue fuel cs = .error e → e = .jsonDecode) ∧
    (∀ cs e, parseItems fuel cs = .error e → e = .jsonDecode) ∧
    (∀ cs e, parseFields fuel cs = .error e → e = .jsonDecode) := by
  induction fuel with
  | zero =>
    refine ⟨?_, ?_, ?_⟩ <;> intro cs e h <;> exact (Except.error.inj h).symm
  | succ f ih =>
    obtain ⟨ihv, ihi, ihf⟩ := ih
    refine ⟨?_, ?_, ?_⟩
    · intro cs e h
      rcases cs with _ | ⟨c, rest⟩
      · exact (Except.error.inj h).symm
      · rw [parseValue] at h
        repeat'
          first
            | exact (Except.error.inj h).symm
            | exact Except.noConfusion h
            | (rename_i err heq
               first
                 | exact (Except.error.inj h) ▸ parseStringBody_error _ _ _ heq
                 | exact (Except.error.inj h) ▸ ihv _ _ heq
                 | exact (Except.error.inj h) ▸ ihi _ _ heq
                 | exact (Except.error.inj h) ▸ ihf _ _ heq)
            | split_ifs at h
            | split at h
    · intro cs e h
      rw [parseItems] at h
      repeat'
        first
          | exact (Except.error.inj h).symm
          | exact Except.noConfusion h
          | (rename_i err heq
             first
               | exact (Except.error.inj h) ▸ ihv _ _ heq
               | exact (Except.error.inj h) ▸ ihi _ _ heq)
          | split_ifs at h
          | split at h
    · intro cs e h
      rcases cs with _ | ⟨c, rest⟩
      · rw [parseFields] at h
        exact (Except.error.inj h).symm
      · rw [parseFields] at h
        repeat'
          first
            | exact (Except.error.inj h).symm
            | exact Except.noConfusion h
            | (rename_i err heq
               first
                 | exact (Except.error.inj h) ▸ parseStringBody_error _ _ _ heq
                 | exact (Except.error.inj h) ▸ ihv _ _ heq
                 | exact (Except.error.inj h) ▸ ihf _ _ heq)
            | split_ifs at h
            | split at h

theorem loads_error (cs : List Char) (e : PyErr) (h : loads cs = .error e) :
    e = .jsonDecode := by
  rw [loads] at h
  split at h
  · rename_i e2 heq
    exact (Except.error.inj h) ▸ (parse_error_classify _).1 _ _ heq
  · rename_i v r heq
    split_ifs at h
    exact (Except.error.inj h).symm

theorem decodeBody_error (n : Int) (r : List Char) (e : PyErr) (rest : List Char)
    (h : decodeBody n r = (.error e, rest)) : e = .jsonDecode := by
  rw [decodeBody] at h
  split at h
  · rename_i e2 heq
    rw [Prod.mk.injEq] at h
    exact (Except.error.inj h.1) ▸ loads_error _ _ heq
  · rename_i v heq
    rw [Prod.mk.injEq] at h
    exact Except.noConfusion h.1

theorem contentLengthOf_error (header : List Char) (e : PyErr)
    (h : contentLengthOf header = .error e) :
    e = .contentLengthMissing ∨ e = .badIntLiteral := by
  rw [contentLengthOf] at h
  split at h
  · exact .inl (Except.error.inj h).symm
  · split at h
    · exact .inr (pyInt_error _ _ h)
    · exact .inr (Except.error.inj h).symm

theorem afterHeader_error (header r : List Char) (e : PyErr) (rest : List Char)
    (h : afterHeader header r = (.error e, rest)) :
    e = .contentLengthMissing ∨ e = .badIntLiteral ∨ e = .jsonDecode := by
  rw [afterHeader] at h
  split at h
  · rename_i e2 heq
    rw [Prod.mk.injEq] at h
    rcases contentLengthOf_error _ _ heq with h2 | h2
    · exact .inl ((Except.error.inj h.1) ▸ h2)
    · exact .inr (.inl ((Except.error.inj h.1) ▸ h2))
  · rename_i n heq
    exact .inr (.inr (decodeBody_error _ _ _ _ h))

theorem decode_error_classify (s : List Char) (e : PyErr) (rest : List Char)
    (h : read_lsp_response s = (.error e, rest)) :
    e = .connectionClosed ∨ e = .contentLengthMissing ∨
      e = .badIntLiteral ∨ e = .jsonDecode := by
  rw [read_lsp_response] at h
  split at h
  · rename_i e2 heq
    rw [Prod.mk.injEq] at h
    exact .inl ((Except.error.inj h.1) ▸ readHeader_error _ _ _ heq)
  · rename_i hd rs heq
    exact .inr (afterHeader_error _ _ _ _ h)

theorem splitCRLF_nil : splitCRLF [] = [[]] := by
  rw [splitCRLF]

theorem splitCRLF_crlf (rest : List Char) :
    splitCRLF ('\x0d' :: '\n' :: rest) = [] :: splitCRLF rest := by
  rw [splitCRLF]

theorem splitCRLF_not_cr (c : Char) (rest : List Char) (h : ¬ c = '\x0d') :
    splitCRLF (c :: rest)
      = (match splitCRLF rest with
         | [] => [[c]]
         | l :: ls => (c :: l) :: ls) := by
  rw [splitCRLF]
  intro _ hc _
  exact absurd hc h

theorem splitCRLF_core (core ys : List Char) (h : '\x0d' ∉ core) :
    splitCRLF (core ++ '\x0d' :: '\n' :: ys) = core :: splitCRLF ys := by
  induction core with
  | nil => rw [List.nil_append, splitCRLF_crlf]
  | cons c cs ih =>
    simp only [List.mem_cons, not_or] at h
    rw [List.cons_append, splitCRLF_not_cr c _ (fun he => h.1 he.symm), ih h.2]

theorem splitColon_colon (rest : List Char) :
    splitColon (':' :: rest) = [] :: splitColon rest := by
  rw [splitColon]

theorem splitColon_not (c : Char) (rest : List Char) (h : ¬ c = ':') :
    splitColon (c :: rest)
      = (match splitColon rest with
         | [] => [[c]]
         | l :: ls => (c :: l) :: ls) := by
  rw [splitColon]
  intro hc
  exact absurd hc h

theorem splitColon_no_colon (l : List Char) (h : ':' ∉ l) : splitColon l = [l] := by
  induction l with
  | nil => rfl
  | cons c cs ih =>
    simp only [List.mem_cons, not_or] at h
    rw [splitColon_not c _ (fun he => h.1 he.symm), ih h.2]

theorem splitColon_left_part (l : List Char) (rest : List Char) (h : ':' ∉ l) :
    splitColon (l ++ ':' :: rest) = l :: splitColon rest := by
  induction l with
  | nil => rw [List.nil_append, splitColon_colon]
  | cons c cs ih =>
    simp only [List.mem_cons, not_or] at h
    rw [List.cons_append, splitColon_not c _ (fun he => h.1 he.symm), ih h.2]

theorem natDigits_no_char (N : Nat) (c : Char) (hc : isDig c = false) :
    c ∉ natDigits N := by
  intro hm
  rw [natDigits_digits N c hm] at hc
  simp at hc

theorem headerCore_no_nl (N : Nat) :
    ∀ c ∈ "Content-Length: ".data ++ natDigits N, ¬ c = '\n' := by
  intro c hm he
  subst he
  rcases List.mem_append.mp hm with h | h
  · revert h
    decide
  · exact natDigits_no_char N '\n' (by decide) h

theorem headerCore_no_cr (N : Nat) :
    '\x0d' ∉ "Content-Length: ".data ++ natDigits N := by
  intro hm
  rcases List.mem_append.mp hm with h | h
  · revert h
    decide
  · exact natDigits_no_char N '\x0d' (by decide) h

theorem isDig_not_ws (d : Char) (hd : isDig d = true) : isPyWs d = false := by
  obtain ⟨h1, h2⟩ := isDig_bounds d hd
  simp only [isPyWs, Bool.or_eq_false_iff, decide_eq_false_iff_not]
  refine ⟨⟨⟨⟨⟨?_, ?_⟩, ?_⟩, ?_⟩, ?_⟩, ?_⟩ <;> intro he <;> subst he <;>
    exact absurd h1 (by decide)

theorem pyStrip_space_digits (N : Nat) :
    pyStrip (' ' :: natDigits N) = natDigits N := by
  obtain ⟨c, t, hct, hcd⟩ := natDigits_head_dig N
  rw [pyStrip, List.dropWhile_cons, if_pos (show isPyWs ' ' = true from rfl)]
  rw [hct, List.dropWhile_cons,
    if_neg (by rw [isDig_not_ws c hcd]; exact Bool.false_ne_true)]
  have hrev : ((c :: t).reverse).dropWhile isPyWs = (c :: t).reverse := by
    rcases hr : (c :: t).reverse with _ | ⟨d, ds⟩
    · rfl
    · have hd : d ∈ c :: t := by
        rw [← List.mem_reverse, hr]
        exact List.mem_cons_self d ds
      have hdig : isDig d = true := by
        rw [← hct] at hd
        exact natDigits_digits N d hd
      rw [List.dropWhile_cons,
        if_neg (by rw [isDig_not_ws d hdig]; exact Bool.false_ne_true)]
  rw [hrev, List.reverse_reverse]

theorem digitsToNat_natDigits (N : Nat) : digitsToNat (natDigits N) = N := by
  rw [digitsToNat, foldl_natDigits]
  simp

theorem pyInt_space_digits (N : Nat) :
    pyInt (' ' :: natDigits N) = .ok (N : Int) := by
  obtain ⟨c, t, hct, hcd⟩ := natDigits_head_dig N
  rw [pyInt, pyStrip_space_digits, hct]
  split
  · rename_i ds heq
    rw [List.cons.injEq] at heq
    obtain ⟨rfl, -⟩ := heq
    exact absurd hcd (by decide)
  · rename_i ds heq
    rw [List.cons.injEq] at heq
    obtain ⟨rfl, -⟩ := heq
    exact absurd hcd (by decide)
  · rw [if_pos ⟨List.cons_ne_nil c t, by
      rw [← hct, List.all_eq_true]
      exact natDigits_digits N⟩]
    rw [← hct, digitsToNat_natDigits]

theorem isPrefixOf_self_append (l r : List Char) : l.isPrefixOf (l ++ r) = true := by
  induction l with
  | nil => cases r <;> rfl
  | cons c cs ih =>
    show (c == c && List.isPrefixOf cs (cs ++ r)) = true
    rw [ih, beq_self_eq_true, Bool.and_self]

theorem headerCore_is_cl (N : Nat) :
    List.isPrefixOf "Content-Length:".data
      ("Content-Length: ".data ++ natDigits N) = true := by
  rw [show "Content-Length: ".data = "Content-Length:".data ++ [' '] from rfl,
    List.append_assoc]
  exact isPrefixOf_self_append _ _

theorem secondColonInt_core (N : Nat) :
    (match splitColon ("Content-Length: ".data ++ natDigits N) with
     | _ :: second :: _ => pyInt second
     | _ => Except.error PyErr.badIntLiteral) = Except.ok (N : Int) := by
  rw [show "Content-Length: ".data ++ natDigits N
      = "Content-Length".data ++ ':' :: ' ' :: natDigits N from by
    rw [show "Content-Length: ".data = "Content-Length".data ++ [':', ' '] from rfl,
      List.append_assoc]
    rfl]
  rw [splitColon_left_part "Content-Length".data (' ' :: natDigits N) (by decide)]
  rw [splitColon_no_colon (' ' :: natDigits N) (by
    intro hm
    rcases List.mem_cons.mp hm with h | h
    · exact absurd h (by decide)
    · exact natDigits_no_char N ':' (by decide) h)]
  exact pyInt_space_digits N

theorem contentLengthOf_header (N : Nat) :
    contentLengthOf (("Content-Length: ".data ++ natDigits N)
        ++ ['\x0d', '\n', '\x0d', '\n']) = .ok (N : Int) := by
  rw [contentLengthOf,
    splitCRLF_core ("Content-Length: ".data ++ natDigits N) ('\x0d' :: '\n' :: [])
      (headerCore_no_cr N),
    splitCRLF_crlf, splitCRLF_nil]
  rw [List.find?_cons_of_pos _ (headerCore_is_cl N)]
  exact secondColonInt_core N

theorem read_lsp_response_encodeFrame (m : Json) (extra : List Char) :
    read_lsp_response (encodeFrame (dumps m) ++ extra) = (.ok m, extra) := by
  have hno2 : ∀ c ∈ natDigits (dumps m).length, ¬ c = '\n' := by
    intro c hm he
    subst he
    exact natDigits_no_char (dumps m).length '\n' (by decide) hm
  have h : encodeFrame (dumps m) ++ extra
      = "Content-Length: ".data ++ (natDigits (dumps m).length
          ++ '\x0d' :: '\n' :: '\x0d' :: '\n' :: (dumps m ++ extra)) := by
    rw [encodeFrame]
    simp only [List.append_assoc, List.cons_append]
  rw [read_lsp_response, h]
  rw [readHeader_no_nl "Content-Length: ".data [] _ (by decide)]
  rw [readHeader_no_nl (natDigits (dumps m).length)
    ([] ++ "Content-Length: ".data) _ hno2]
  rw [readHeader_tag (([] ++ "Content-Length: ".data) ++ natDigits (dumps m).length)
    (dumps m ++ extra)
    (by
      rw [List.nil_append]
      exact fun hm => headerCore_no_nl (dumps m).length '\n' hm rfl)]
  show afterHeader ((([] ++ "Content-Length: ".data) ++ natDigits (dumps m).length)
      ++ ['\x0d', '\n', '\x0d', '\n']) (dumps m ++ extra) = (Except.ok m, extra)
  rw [List.nil_append, afterHeader, contentLengthOf_header]
  show decodeBody ((dumps m).length : Int) (dumps m ++ extra) = (Except.ok m, extra)
  rw [decodeBody, readN, if_neg (Int.not_lt.mpr (Int.natCast_nonneg _))]
  simp only [Int.toNat_natCast, List.take_left, List.drop_left]
  rw [loads_dumps]

/-- C2: for every JSON message `m` whose objects have pairwise-distinct
keys (every message the client builds comes from Python dicts, which
guarantee this), decoding the `Content-Length`-framed text produced by
encoding `m` yields `m` back and consumes exactly the frame:
`decode(encode(m)) = m`, the remainder of the stream untouched. -/
theorem decode_encode_roundtrip (m : Json) (extra : List Char)
    (_h : noDupKeys m) :
    read_lsp_response (encodeFrame (dumps m) ++ extra) = (.ok m, extra) :=
  read_lsp_response_encodeFrame m extra

theorem decode_encode_roundtrip_witness :
    noDupKeys (Json.obj [("jsonrpc", Json.str "2.0"), ("id", Json.num 1),
        ("method", Json.str "initialize")]) ∧
    read_lsp_response (encodeFrame (dumps (Json.obj [("jsonrpc", Json.str "2.0"),
        ("id", Json.num 1), ("method", Json.str "initialize")])) ++ [])
      = (.ok (Json.obj [("jsonrpc", Json.str "2.0"), ("id", Json.num 1),
          ("method", Json.str "initialize")]), []) :=
  ⟨⟨by decide, trivial, trivial, trivial, trivial⟩,
    decode_encode_roundtrip _ [] ⟨by decide, trivial, trivial, trivial, trivial⟩⟩

theorem decodeBody_take (N : Nat) (body : List Char) :
    decodeBody (N : Int) body = (loads (body.take N), body.drop N) := by
  rw [decodeBody, readN, if_neg (Int.not_lt.mpr (Int.natCast_nonneg _))]
  simp only [Int.toNat_natCast]
  cases loads (body.take N) <;> rfl

theorem decode_frame_eq (N : Nat) (body : List Char) :
    read_lsp_response (("Content-Length: ".data ++ natDigits N)
        ++ '\x0d' :: '\n' :: '\x0d' :: '\n' :: body)
      = (loads (body.take N), body.drop N) := by
  have hno2 : ∀ c ∈ natDigits N, ¬ c = '\n' := by
    intro c hm he
    subst he
    exact natDigits_no_char N '\n' (by decide) hm
  rw [read_lsp_response, List.append_assoc]
  rw [readHeader_no_nl "Content-Length: ".data [] _ (by decide)]
  rw [readHeader_no_nl (natDigits N) ([] ++ "Content-Length: ".data) _ hno2]
  rw [readHeader_tag (([] ++ "Content-Length: ".data) ++ natDigits N) body
    (by
      rw [List.nil_append]
      exact fun hm => headerCore_no_nl N '\n' hm rfl)]
  show afterHeader ((([] ++ "Content-Length: ".data) ++ natDigits N)
      ++ ['\x0d', '\n', '\x0d', '\n']) body = (loads (body.take N), body.drop N)
  rw [List.nil_append, afterHeader, contentLengthOf_header]
  exact decodeBody_take N body

theorem decode_reads_at_most_declared (N : Nat) (body : List Char)
    (h : body.length ≤ N) :
    read_lsp_response (("Content-Length: ".data ++ natDigits N)
        ++ '\x0d' :: '\n' :: '\x0d' :: '\n' :: body) = (loads body, []) := by
  rw [decode_frame_eq, List.take_of_length_le h, List.drop_eq_nil_of_le h]

theorem decode_missing_content_length (h1 body : List Char)
    (hnl : '\n' ∉ h1) (hcr : '\x0d' ∉ h1)
    (hcl : "Content-Length:".data.isPrefixOf h1 = false) :
    read_lsp_response (h1 ++ '\x0d' :: '\n' :: '\x0d' :: '\n' :: body)
      = (.error .contentLengthMissing, body) := by
  rw [read_lsp_response]
  rw [readHeader_no_nl h1 [] _ (fun c hc he => hnl (he ▸ hc))]
  rw [readHeader_tag ([] ++ h1) body (by rw [List.nil_append]; exact hnl)]
  show afterHeader (([] ++ h1) ++ ['\x0d', '\n', '\x0d', '\n']) body
      = (.error .contentLengthMissing, body)
  rw [List.nil_append, afterHeader]
  have hc : contentLengthOf (h1 ++ ['\x0d', '\n', '\x0d', '\n'])
      = .error .contentLengthMissing := by
    rw [contentLengthOf, splitCRLF_core h1 ('\x0d' :: '\n' :: []) hcr,
      splitCRLF_crlf, splitCRLF_nil]
    rw [List.find?_cons_of_neg _ (by simp [hcl]),
      List.find?_cons_of_neg _ (by decide),
      List.find?_cons_of_neg _ (by decide)]
    rfl
  rw [hc]

theorem decode_bad_content_length_value (val body : List Char)
    (hnl : '\n' ∉ val) (hcr : '\x0d' ∉ val) (hcol : ':' ∉ val)
    (hbad : pyInt val = .error .badIntLiteral) :
    read_lsp_response (("Content-Length:".data ++ val)
        ++ '\x0d' :: '\n' :: '\x0d' :: '\n' :: body)
      = (.error .badIntLiteral, body) := by
  rw [read_lsp_response, List.append_assoc]
  rw [readHeader_no_nl "Content-Length:".data [] _ (by decide)]
  rw [readHeader_no_nl val ([] ++ "Content-Length:".data) _
    (fun c hc he => hnl (he ▸ hc))]
  rw [readHeader_tag (([] ++ "Content-Length:".data) ++ val) body (by
    rw [List.nil_append]
    intro hm
    rcases List.mem_append.mp hm with hm | hm
    · revert hm
      decide
    · exact hnl hm)]
  show afterHeader ((([] ++ "Content-Length:".data) ++ val)
      ++ ['\x0d', '\n', '\x0d', '\n']) body = (.error .badIntLiteral, body)
  rw [List.nil_append, afterHeader]
  have hc : contentLengthOf (("Content-Length:".data ++ val)
      ++ ['\x0d', '\n', '\x0d', '\n']) = .error .badIntLiteral := by
    rw [contentLengthOf, splitCRLF_core _ ('\x0d' :: '\n' :: []) (by
        intro hm
        rcases List.mem_append.mp hm with hm | hm
        · revert hm
          decide
        · exact hcr hm),
      splitCRLF_crlf, splitCRLF_nil]
    rw [List.find?_cons_of_pos _ (isPrefixOf_self_append "Content-Length:".data val)]
    show (match splitColon ("Content-Length:".data ++ val) with
          | _ :: second :: _ => pyInt second
          | _ => Except.error PyErr.badIntLiteral) = Except.error PyErr.badIntLiteral
    rw [show "Content-Length:".data ++ val = "Content-Length".data ++ ':' :: val from by
      rw [show "Content-Length:".data = "Content-Length".data ++ [':'] from rfl,
        List.append_assoc]
      rfl]
    rw [splitColon_left_part "Content-Length".data val (by decide),
      splitColon_no_colon val hcol]
    exact hbad
  rw [hc]

theorem decode_extra_header (h1 : List Char) (N : Nat) (body : List Char)
    (hnl : '\n' ∉ h1) (hcr : '\x0d' ∉ h1)
    (hcl : "Content-Length:".data.isPrefixOf h1 = false) :
    read_lsp_response (h1 ++ '\x0d' :: '\n' :: (("Content-Length: ".data ++ natDigits N)
        ++ '\x0d' :: '\n' :: '\x0d' :: '\n' :: body))
      = read_lsp_response (("Content-Length: ".data ++ natDigits N)
        ++ '\x0d' :: '\n' :: '\x0d' :: '\n' :: body) := by
  rw [decode_frame_eq, read_lsp_response]
  rw [readHeader_no_nl h1 [] _ (fun c hc he => hnl (he ▸ hc))]
  rw [readHeader_mid_crlf ([] ++ h1) _ (by
    rw [List.nil_append]
    intro heq
    have hmem : '\n' ∈ h1.reverse.take 2 := by rw [heq]; simp
    exact hnl (List.mem_reverse.mp (List.mem_of_mem_take hmem)))]
  rw [List.nil_append, List.append_assoc]
  rw [readHeader_no_nl "Content-Length: ".data (h1 ++ ['\x0d', '\n']) _ (by decide)]
  rw [readHeader_no_nl (natDigits N) ((h1 ++ ['\x0d', '\n']) ++ "Content-Length: ".data) _
    (fun c hc he => natDigits_no_char N '\n' (by decide) (he ▸ hc))]
  rw [readHeader_tag2 (((h1 ++ ['\x0d', '\n']) ++ "Content-Length: ".data) ++ natDigits N)
    body (by
      intro heq
      rw [List.reverse_append] at heq
      rcases hr : (natDigits N).reverse with _ | ⟨d, ds⟩
      · exact natDigits_ne_nil N (by rwa [List.reverse_eq_nil_iff] at hr)
      · rw [hr, List.cons_append, List.take_succ_cons] at heq
        simp only [List.cons.injEq] at heq
        have hd : isDig d = true :=
          natDigits_digits N d (List.mem_reverse.mp (hr ▸ List.mem_cons_self d ds))
        rw [heq.1] at hd
        exact absurd hd (by decide))]
  show afterHeader ((((h1 ++ ['\x0d', '\n']) ++ "Content-Length: ".data) ++ natDigits N)
      ++ ['\x0d', '\n', '\x0d', '\n']) body = (loads (body.take N), body.drop N)
  rw [afterHeader]
  have hc : contentLengthOf ((((h1 ++ ['\x0d', '\n']) ++ "Content-Length: ".data)
      ++ natDigits N) ++ ['\x0d', '\n', '\x0d', '\n']) = .ok (N : Int) := by
    rw [show (((h1 ++ ['\x0d', '\n']) ++ "Content-Length: ".data) ++ natDigits N)
          ++ ['\x0d', '\n', '\x0d', '\n']
        = h1 ++ '\x0d' :: '\n' :: (("Content-Length: ".data ++ natDigits N)
          ++ ['\x0d', '\n', '\x0d', '\n']) from by
      simp only [List.append_assoc, List.cons_append, List.nil_append]]
    rw [contentLengthOf, splitCRLF_core h1 _ hcr,
      splitCRLF_core ("Content-Length: ".data ++ natDigits N) ('\x0d' :: '\n' :: [])
        (headerCore_no_cr N),
      splitCRLF_crlf, splitCRLF_nil]
    rw [List.find?_cons_of_neg _ (by simp [hcl]),
      List.find?_cons_of_pos _ (headerCore_is_cl N)]
    exact secondColonInt_core N
  rw [hc]
  exact decodeBody_take N body

/-- C4 counterexample: a frame declaring `Content-Length: 10` over a
stream that ends after only two body characters decodes successfully
(`read(n)` in text mode returns what is available without error, and the
truncated body `\x7b\x7d` parses), contradicting the claim that decoding
fails whenever the stream ends before the declared length. -/
theorem truncated_declared_length_succeeds_counterexample :
    read_lsp_response ("Content-Length: 10\x0d\n\x0d\n\x7b\x7d".data)
      = (.ok (.obj []), []) := rfl

/-- C4 (amended): decoding fails exactly in these cases, and with these
errors.  (if) A stream that ends before the `\x0d\n\x0d\n` header
terminator fails with the connection-closed error; a header line that is
not a `Content-Length` header yields the missing-header error; a
`Content-Length` whose value text is not an integer literal yields the
int-conversion error; and a well-formed frame returns exactly `json.loads`
of the first (at most) `N` characters the stream still holds — so a
stream ending before the declared length is *not* itself an error: the
truncated body is parsed, succeeding when it is valid JSON and failing
with the JSON error only when it is not.  (only if) Every failure is one
of those four errors.  Additional headers besides `Content-Length` are
tolerated and ignored: decoding with such a header line equals decoding
without it, for every header line and every rest of stream. -/
theorem decode_failure_iff :
    (∀ s e rest, read_lsp_response s = (.error e, rest) →
        e = .connectionClosed ∨ e = .contentLengthMissing ∨
          e = .badIntLiteral ∨ e = .jsonDecode) ∧
    (∀ s : List Char, (∀ i, 1 ≤ i → i ≤ s.length → ends4 (s.take i) = false) →
        read_lsp_response s = (.error .connectionClosed, [])) ∧
    (∀ (N : Nat) (body : List Char),
        read_lsp_response (("Content-Length: ".data ++ natDigits N)
            ++ '\x0d' :: '\n' :: '\x0d' :: '\n' :: body)
          = (loads (body.take N), body.drop N)) ∧
    (∀ h1 body : List Char, '\n' ∉ h1 → '\x0d' ∉ h1 →
        "Content-Length:".data.isPrefixOf h1 = false →
        read_lsp_response (h1 ++ '\x0d' :: '\n' :: '\x0d' :: '\n' :: body)
          = (.error .contentLengthMissing, body)) ∧
    (∀ val body : List Char, '\n' ∉ val → '\x0d' ∉ val → ':' ∉ val →
        pyInt val = .error .badIntLiteral →
        read_lsp_response (("Content-Length:".data ++ val)
            ++ '\x0d' :: '\n' :: '\x0d' :: '\n' :: body)
          = (.error .badIntLiteral, body)) ∧
    (∀ (h1 : List Char) (N : Nat) (body : List Char),
        '\n' ∉ h1 → '\x0d' ∉ h1 →
        "Content-Length:".data.isPrefixOf h1 = false →
        read_lsp_response (h1 ++ '\x0d' :: '\n'
            :: (("Content-Length: ".data ++ natDigits N)
              ++ '\x0d' :: '\n' :: '\x0d' :: '\n' :: body))
          = read_lsp_response (("Content-Length: ".data ++ natDigits N)
            ++ '\x0d' :: '\n' :: '\x0d' :: '\n' :: body)) :=
  ⟨decode_error_classify,
   fun s h => by rw [read_lsp_response, readHeader_eof s [] (by simpa using h)],
   decode_frame_eq,
   decode_missing_content_length,
   decode_bad_content_length_value,
   decode_extra_header⟩

theorem decode_failure_iff_witness :
    ('\n' ∉ "X-Powered-By: 1".data ∧ '\x0d' ∉ "X-Powered-By: 1".data ∧
      "Content-Length:".data.isPrefixOf "X-Powered-By: 1".data = false) ∧
    read_lsp_response ("X-Powered-By: 1".data
        ++ '\x0d' :: '\n' :: '\x0d' :: '\n' :: "[1]".data)
      = (.error .contentLengthMissing, "[1]".data) :=
  ⟨⟨by decide, by decide, by decide⟩,
   decode_failure_iff.2.2.2.1 "X-Powered-By: 1".data "[1]".data
     (by decide) (by decide) (by decide)⟩

/- ### State-machine lemmas -/

/-- A fault-free `send_request` in a live state always appends exactly one
frame carrying the current id, bumps the counter by one and touches no
other control field. -/
theorem send_request_state_change (s : ClientState) (m : String) (p : Option Json)
    (h : (s.processStarted && s.processAlive) = true) :
    ((send_request s m p none).2.stdin_written
        = s.stdin_written ++ encodeFrame (dumps (requestObj s.request_id m p))) ∧
    (send_request s m p none).2.request_id = s.request_id + 1 ∧
    (send_request s m p none).2.processStarted = s.processStarted ∧
    (send_request s m p none).2.processAlive = s.processAlive ∧
    (send_request s m p none).2.timeout = s.timeout := by
  cases hrr : read_lsp_response s.stdout_stream with
  | mk res rest => cases res <;> simp [send_request, h, hrr]

/-- **C6** — a call attempted while the server process is not alive (never
started, or already exited) raises `RuntimeError` for that call and leaves
the whole client state — in particular everything written to the process
input stream — untouched. -/
theorem call_on_dead_process_fails_before_writing
    (s : ClientState) (m : String) (p : Option Json) (wf : Option String)
    (h : s.processStarted = false ∨ s.processAlive = false) :
    send_request s m p wf = (.error .notRunning, s) := by
  have hb : (s.processStarted && s.processAlive) = false := by
    rcases h with h | h <;> simp [h]
  simp [send_request, hb]

theorem call_on_dead_process_fails_before_writing_witness :
    send_request (initClient []) "initialize" none none
      = (.error .notRunning, initClient []) :=
  call_on_dead_process_fails_before_writing (initClient []) "initialize" none none
    (Or.inl rfl)

/-- **C9** — `send_notification` on a started process is fire-and-forget:
the emitted message has no `"id"` field, the request-id counter and the
server output stream are untouched (nothing is read, nothing awaited), and
the only effect is appending the notification's frame to stdin. -/
theorem notification_is_fire_and_forget
    (s : ClientState) (m : String) (p : Option Json)
    (h : s.processStarted = true) :
    send_notification s m p
      = (.ok (), { s with stdin_written :=
          s.stdin_written ++ encodeFrame (dumps (notificationObj m p)) }) ∧
    lookupField (notificationObj m p) "id" = none ∧
    (send_notification s m p).2.request_id = s.request_id ∧
    (send_notification s m p).2.stdout_stream = s.stdout_stream := by
  refine ⟨by simp [send_notification, h], by simp [lookupField, notificationObj], ?_, ?_⟩ <;>
    simp [send_notification, h]

theorem notification_is_fire_and_forget_witness :
    (send_notification { initClient [] with processStarted := true } "initialized" none).1
        = .ok () ∧
    lookupField (notificationObj "initialized" none) "id" = none ∧
    (send_notification { initClient [] with processStarted := true } "initialized" none).2.request_id
        = 1 := by
  have h := notification_is_fire_and_forget
    { initClient [] with processStarted := true } "initialized" none rfl
  exact ⟨by rw [h.1], h.2.1, h.2.2.1⟩

/-- **C10** — once the liveness check has passed, a failing write or a
failing read does not propagate an exception: `send_request` returns the
dictionary `{"error": {"code": -2, "message": str(e)}}` instead. -/
theorem transport_errors_become_error_dict
    (s : ClientState) (m : String) (p : Option Json)
    (h : (s.processStarted && s.processAlive) = true) :
    (∀ msg, (send_request s m p (some msg)).1 = .ok (errorDict msg)) ∧
    (∀ e rest, read_lsp_response s.stdout_stream = (.error e, rest) →
      (send_request s m p none).1 = .ok (errorDict e.text)) := by
  constructor
  · intro msg; simp [send_request, h]
  · intro e rest hrr; simp [send_request, h, hrr]

theorem transport_errors_become_error_dict_witness :
    (send_request { initClient [] with processStarted := true, processAlive := true }
        "m" none (some "Broken pipe")).1 = .ok (errorDict "Broken pipe") ∧
    (send_request { initClient [] with processStarted := true, processAlive := true }
        "m" none none).1 = .ok (errorDict PyErr.connectionClosed.text) :=
  ⟨(transport_errors_become_error_dict
      { initClient [] with processStarted := true, processAlive := true } "m" none
      rfl).1 "Broken pipe",
   (transport_errors_become_error_dict
      { initClient [] with processStarted := true, processAlive := true } "m" none
      rfl).2 PyErr.connectionClosed [] rfl⟩

/-- **C7** — `start_server` reports failure whenever the executable is
missing or the process is no longer alive after the one-second grace poll
(and also when the version probe fails); a `true` return means the process
survived the grace period and the client records it alive. -/
theorem start_server_failure_and_success
    (s : ClientState) (env : SpawnEnv) :
    (env.execPresent = false ∨ env.aliveAfterGrace = false →
        (start_server s env).1 = false) ∧
    ((start_server s env).1 = true →
        env.aliveAfterGrace = true ∧ (start_server s env).2.processAlive = true ∧
        (start_server s env).2.processStarted = true) := by
  rcases env with ⟨ep, vp, ag⟩
  rcases vp with _ | code
  · cases ep <;> cases ag <;> simp [start_server]
  · rcases eq_or_ne code 0 with hc | hc <;> cases ep <;> cases ag <;>
      simp [start_server, hc]

/-- `start_server` never touches the id counter or the stream buffers. -/
theorem start_server_preserves_buffers (s : ClientState) (env : SpawnEnv) :
    (start_server s env).2.request_id = s.request_id ∧
    (start_server s env).2.stdin_written = s.stdin_written ∧
    (start_server s env).2.stdout_stream = s.stdout_stream := by
  rcases env with ⟨ep, vp, ag⟩
  rcases vp with _ | code
  · cases ep <;> simp [start_server]
  · rcases eq_or_ne code 0 with hc | hc <;> cases ep <;> cases ag <;>
      simp [start_server, hc]

/-- Under fault-free writes and a live process, `runCalls` writes the
frames of consecutive ids starting at the current counter and advances the
counter by the number of calls. -/
theorem runCalls_stdin_and_ids (msgs : List (String × Option Json)) :
    ∀ s : ClientState, s.processStarted = true → s.processAlive = true →
      (runCalls s msgs).stdin_written
          = s.stdin_written ++ framesFrom s.request_id msgs ∧
      (runCalls s msgs).request_id = s.request_id + msgs.length := by
  induction msgs with
  | nil => intro s _ _; simp [runCalls, framesFrom]
  | cons mp rest ih =>
    intro s hs ha
    obtain ⟨m, p⟩ := mp
    have hb : (s.processStarted && s.processAlive) = true := by simp [hs, ha]
    obtain ⟨hw, hid, hst, hal, _⟩ := send_request_state_change s m p hb
    obtain ⟨ihw, ihid⟩ := ih (send_request s m p none).2
      (by rw [hst, hs]) (by rw [hal, ha])
    constructor
    · rw [runCalls, ihw, hw, hid]
      simp [framesFrom, List.append_assoc]
    · rw [runCalls, ihid, hid]
      simp [List.length_cons]; omega

/-- **C5** — after a successful `start_server` on a fresh client, the
requests written to the process stdin carry the ids 1, 2, 3, … in order:
the first request has id 1 and every later one the successor of the
previous, so ids are strictly increasing positive integers and no id ever
recurs among the calls issued. -/
theorem request_ids_strictly_increasing_from_one
    (o : List Char) (env : SpawnEnv) (msgs : List (String × Option Json))
    (h : (start_server (initClient o) env).1 = true) :
    (runCalls (start_server (initClient o) env).2 msgs).stdin_written
        = framesFrom 1 msgs ∧
    (runCalls (start_server (initClient o) env).2 msgs).request_id
        = 1 + msgs.length := by
  obtain ⟨_, hal, hst⟩ := (start_server_failure_and_success (initClient o) env).2 h
  obtain ⟨hid, hw, _⟩ := start_server_preserves_buffers (initClient o) env
  obtain ⟨h1, h2⟩ := runCalls_stdin_and_ids msgs (start_server (initClient o) env).2 hst hal
  rw [h1, h2, hid, hw]
  exact ⟨by simp [initClient], by simp [initClient]⟩

theorem request_ids_strictly_increasing_from_one_witness :
    (runCalls
        (start_server (initClient [])
          { execPresent := true, versionProbe := some 0, aliveAfterGrace := true }).2
        [("a", none), ("b", none)]).stdin_written
      = framesFrom 1 [("a", none), ("b", none)] :=
  (request_ids_strictly_increasing_from_one []
    { execPresent := true, versionProbe := some 0, aliveAfterGrace := true }
    [("a", none), ("b", none)] rfl).1

/-- **C8** counterexample — `send_request` and `_run_async` accept no
per-call timeout: the deadline applied is always the client-wide
`self.timeout` fixed at construction (10.0 s).  A call whose caller wanted
a 5-second deadline but whose coroutine completes at t = 7 s succeeds
instead of failing with `Timeout` at ~5 s, refuting "the timeout is
applied per call as passed by the caller". -/
theorem per_call_timeout_counterexample :
    (initClient []).timeout = 10 ∧
    run_async (initClient []) (some 7) (0 : Nat) = .ok 0 :=
  ⟨rfl, rfl⟩

/-- **C8** (amended) — the timeout applied to every call is the
client-wide `self.timeout` set in `__init__` (10 s), not a caller-supplied
per-call value; with `T` read as that client-wide deadline the rest of the
claim holds: a call whose coroutine completes within `T` returns its
value; one that has not completed by `T` (or never completes) fails with
`concurrent.futures.TimeoutError`; and a response arriving after `T` is
dropped without affecting the already-resolved (timed-out) call — the
coroutine is never cancelled, but its late value reaches no caller and
the timed-out call's outcome is independent of it (last conjunct: the
result is the same whatever value `v` or `w` the late response carries). -/
theorem timeout_is_client_wide (o : List Char) (t u : Int) (v w : α)
    (hu : u ≤ 10) (ht : 10 < t) :
    (initClient o).timeout = 10 ∧
    run_async (initClient o) (some u) v = .ok v ∧
    run_async (initClient o) (some t) v = .error .futuresTimeout ∧
    run_async (initClient o) none v = .error .futuresTimeout ∧
    run_async (initClient o) (some t) v = run_async (initClient o) (some t) w := by
  refine ⟨rfl, ?_, ?_, rfl, ?_⟩
  · simp only [run_async, initClient]
    rw [if_pos hu]
  · simp only [run_async, initClient]
    rw [if_neg (by omega)]
  · simp only [run_async, initClient]
    rw [if_neg (by omega), if_neg (by omega)]

theorem timeout_is_client_wide_witness :
    ((3 : Int) ≤ 10 ∧ (10 : Int) < 11) ∧
    ((initClient []).timeout = 10 ∧
     run_async (initClient []) (some 3) (0 : Nat) = .ok 0 ∧
     run_async (initClient []) (some 11) (0 : Nat) = .error .futuresTimeout ∧
     run_async (initClient []) none (0 : Nat) = .error .futuresTimeout ∧
     run_async (initClient []) (some 11) (0 : Nat)
       = run_async (initClient []) (some 11) (1 : Nat)) :=
  ⟨⟨by omega, by omega⟩,
   timeout_is_client_wide [] 11 3 0 1 (by omega) (by omega)⟩

/-- **C1** counterexample — the bridge keeps no table of in-flight calls
and never compares response ids to request ids: `send_request` hands the
caller whatever complete message is next on the stream.  Here the caller's
request goes out with id 1 (the current counter), yet the call returns the
queued response whose id is 42. -/
theorem response_id_not_matched_counterexample :
    mismatchClient.request_id = 1 ∧
    (send_request mismatchClient "textDocument/hover" none none).1
        = .ok (Json.obj [("id", Json.num 42)]) ∧
    lookupField (Json.obj [("id", Json.num 42)]) "id" ≠ some (Json.num 1) := by
  refine ⟨rfl, by rfl, by simp [lookupField]⟩

/-- **C1** (amended) — each `send_request` returns the next complete
message decoded from the server's stdout stream, whatever id it carries;
the response matches the caller's id only when the server happens to
answer in lockstep.  No pending-call table exists and concurrent callers
are sequenced only by the shared event loop. -/
theorem call_returns_next_stream_message
    (s : ClientState) (m : String) (p : Option Json) (r : Json) (rest : List Char)
    (h : (s.processStarted && s.processAlive) = true)
    (hr : read_lsp_response s.stdout_stream = (.ok r, rest)) :
    (send_request s m p none).1 = .ok r := by
  simp [send_request, h, hr]

theorem call_returns_next_stream_message_witness :
    (send_request mismatchClient "m" none none).1 = .ok (Json.obj [("id", Json.num 42)]) :=
  call_returns_next_stream_message mismatchClient "m" none
    (Json.obj [("id", Json.num 42)]) [] rfl (by rfl)

theorem start_server_failure_and_success_witness :
    (start_server (initClient [])
        { execPresent := false, versionProbe := some 0, aliveAfterGrace := true }).1
      = false ∧
    (start_server (initClient [])
        { execPresent := true, versionProbe := some 0, aliveAfterGrace := false }).1
      = false :=
  ⟨(start_server_failure_and_success (initClient [])
      { execPresent := false, versionProbe := some 0, aliveAfterGrace := true }).1
      (Or.inl rfl),
   (start_server_failure_and_success (initClient [])
      { execPresent := true, versionProbe := some 0, aliveAfterGrace := false }).1
      (Or.inr rfl)⟩

end LSPBridge
